import Mathlib

/-!
# Verification of the oKode code-graph pipeline specification

Shallow embedding of the core of the oKode scanner / sync / query scripts
(`okode_scan.py`, `okode_sync.py`, `okode_query.py`) and proofs about the
claims of the specification.

Modelling conventions:
* Python dicts and sets are modelled as association lists / lists with
  membership tests; insertion order of dicts is preserved as in CPython.
  Python `set` iteration order is modelled as first-insertion order (CPython
  set order is hash-dependent; no theorem below depends on set order except
  where explicitly discussed).
* JSON values are modelled by the inductive `JVal` (numbers as `Int`; no
  claim depends on float behaviour).
* Fallible operations (JSON parsing, subprocess calls, `dict[key]`
  subscripts) are modelled with `Option` / `Except`.
-/

namespace Okode

/-- Python `pat in hay` on strings: substring containment. -/
def strContains (hay pat : String) : Bool :=
  (List.range (hay.data.length + 1)).any (fun i => pat.data.isPrefixOf (hay.data.drop i))

/-- Python `str.lower()` (ASCII case fold, which is all the source uses). -/
def strLower (s : String) : String := String.mk (s.data.map Char.toLower)

/-- Python `s.startswith(pre)`. -/
def strStartsWith (s pre : String) : Bool := pre.data.isPrefixOf s.data

/-- Python `s[:n]` (slicing is by character). -/
def strTake (s : String) (n : Nat) : String := String.mk (s.data.take n)

/-- Python `s.strip()` (whitespace variant). -/
def strTrim (s : String) : String :=
  String.mk (((s.data.dropWhile Char.isWhitespace).reverse.dropWhile Char.isWhitespace).reverse)

/-- `str.split(sep)` for a single-character separator. -/
def splitCharAux (c : Char) : List Char → List Char → List String
  | [], cur => [String.mk cur.reverse]
  | x :: xs, cur =>
    if x = c then String.mk cur.reverse :: splitCharAux c xs []
    else splitCharAux c xs (x :: cur)

def splitChar (s : String) (c : Char) : List String := splitCharAux c s.data []

/-- Python `int(s)` on a string: optional surrounding whitespace, optional
sign, at least one digit. -/
def strToIntPy (s : String) : Option Int :=
  let cs := ((s.data.dropWhile Char.isWhitespace).reverse.dropWhile Char.isWhitespace).reverse
  match cs with
  | [] => none
  | c :: rest =>
    let p : Bool × List Char :=
      if c = '-' then (true, rest) else if c = '+' then (false, rest) else (false, c :: rest)
    if p.2.isEmpty || !(p.2.all Char.isDigit) then none
    else
      let v : Int := p.2.foldl (fun a d => a * 10 + ((d.toNat : Int) - 48)) 0
      some (if p.1 then -v else v)

/-- Insert-if-absent fold used to model Python `set` construction
(first-insertion iteration order). -/
def dedupStrs (xs : List String) : List String :=
  xs.foldl (fun acc x => if acc.contains x then acc else acc ++ [x]) []

/-- Index of the last `.` character in a string, if any
(Python `str.rfind(".")` restricted to a found result). -/
def lastDotIdx (s : String) : Option Nat :=
  ((List.range s.data.length).filter (fun j => s.data.get? j = some '.')).getLast?

/-- Python `pathlib.Path(p).stem`: final path component with its suffix
removed (`suffix` exists only when the last dot is neither first nor last
character of the name). -/
def pathStem (p : String) : String :=
  let name := (((splitChar p '/').filter (fun c => c ≠ "")).getLast?).getD ""
  match lastDotIdx name with
  | some i => if 0 < i ∧ i + 1 < name.length then name.take i else name
  | none => name

/-! ## JSON values and dict primitives -/

/-- A JSON value as loaded by `json.loads` (numbers restricted to `Int`). -/
inductive JVal where
  | null
  | bool (b : Bool)
  | num (n : Int)
  | str (s : String)
  | arr (items : List JVal)
  | obj (fields : List (String × JVal))
  deriving Repr

/-- A JSON object / Python dict with string keys. -/
abbrev JDict := List (String × JVal)

/-- Dict lookup; duplicate keys resolve to the *last* occurrence, matching
`json.loads` building a dict by successive assignment. -/
def dlookup (d : JDict) (k : String) : Option JVal :=
  ((d.filter (fun p => p.1 == k)).getLast?).map Prod.snd

/-- Python `d.get(k, dflt)`. -/
def pyGetD (d : JDict) (k : String) (dflt : JVal) : JVal :=
  (dlookup d k).getD dflt

/-- Python `d[k]`: raises `KeyError` when the key is absent. -/
def pySubscript (d : JDict) (k : String) : Except String JVal :=
  match dlookup d k with
  | some v => .ok v
  | none => .error ("KeyError: " ++ k)

/-- Python `v == s` for a JSON value against a string literal
(non-strings never compare equal to a string). -/
def jstrEq (v : JVal) (s : String) : Bool :=
  match v with
  | .str t => t == s
  | _ => false

/-- Whether a JSON value is hashable in Python (usable as a dict key). -/
def JVal.isHashable : JVal → Bool
  | .arr _ => false
  | .obj _ => false
  | _ => true

/-! ## Sync engine (`okode_sync.py`)

The sync engine operates on node/edge dicts loaded from `graph.json`.  The
fields it reads are `id`, `file`, `ring` for nodes and `source`, `target`,
`type`, `file` (plus `context`/`line`, which it only copies) for edges; the
structures below carry exactly those fields. -/

structure SNode where
  id : String
  file : String
  ring : Int
  deriving Repr, DecidableEq

structure SEdge where
  source : String
  target : String
  etype : String
  context : String
  file : String
  line : Int
  deriving Repr, DecidableEq

structure SyncGraph where
  nodes : List SNode
  edges : List SEdge
  deriving Repr, DecidableEq

/-- Drift warning `{type, severity, detail}`. -/
structure Drift where
  dtype : String
  severity : String
  detail : String
  deriving Repr, DecidableEq

/-- `_nodes_for_file`. -/
def nodesForFile (g : SyncGraph) (rel : String) : List SNode :=
  g.nodes.filter (fun n => n.file == rel)

/-- `_edges_for_file`. -/
def edgesForFile (g : SyncGraph) (rel : String) : List SEdge :=
  g.edges.filter (fun e => e.file == rel)

/-- `_remove_file_from_graph`: drop all nodes of `rel` and every edge whose
file is `rel` *or* whose source or target is one of the removed node ids;
return the graph together with the removed nodes/edges snapshot. -/
def removeFileFromGraph (g : SyncGraph) (rel : String) :
    SyncGraph × List SNode × List SEdge :=
  let oldNodes := nodesForFile g rel
  let oldEdges := edgesForFile g rel
  let oldIds := oldNodes.map (fun n => n.id)
  let g' : SyncGraph :=
    { nodes := g.nodes.filter (fun n => !(n.file == rel))
      edges := g.edges.filter (fun e =>
        !(e.file == rel) && !(oldIds.contains e.source) && !(oldIds.contains e.target)) }
  (g', oldNodes, oldEdges)

/-- In-place update of the first node with a matching id
(`graph["nodes"][i] = n` for the first matching index). -/
def replaceFirstNode : List SNode → SNode → List SNode
  | [], _ => []
  | x :: xs, n => if x.id == n.id then n :: xs else x :: replaceFirstNode xs n

/-- Node half of `_merge_into_graph`: upsert by id. -/
def mergeNodes : List SNode → List SNode → List SNode
  | acc, [] => acc
  | acc, n :: rest =>
    if acc.any (fun x => x.id == n.id) then mergeNodes (replaceFirstNode acc n) rest
    else mergeNodes (acc ++ [n]) rest

/-- The sync dedup key `(source, target, type, file)`. -/
def edgeKey4 (e : SEdge) : String × String × String × String :=
  (e.source, e.target, e.etype, e.file)

def hasKey4 (acc : List SEdge) (e : SEdge) : Bool :=
  acc.any (fun x => edgeKey4 x == edgeKey4 e)

/-- Edge half of `_merge_into_graph`: append each new edge whose
`(source, target, type, file)` key is not yet present. -/
def mergeEdges : List SEdge → List SEdge → List SEdge
  | acc, [] => acc
  | acc, e :: rest =>
    if hasKey4 acc e then mergeEdges acc rest else mergeEdges (acc ++ [e]) rest

/-- `_merge_into_graph`. -/
def mergeIntoGraph (g : SyncGraph) (newNodes : List SNode) (newEdges : List SEdge) :
    SyncGraph :=
  { nodes := mergeNodes g.nodes newNodes, edges := mergeEdges g.edges newEdges }

/-! ### Cycle detection (`_detect_circular_dependencies`) -/

/-- `adj.setdefault(src, set()).add(tgt)` on an insertion-ordered adjacency
list with insertion-ordered target sets. -/
def adjInsert (adj : List (String × List String)) (src tgt : String) :
    List (String × List String) :=
  if adj.any (fun p => p.1 == src) then
    adj.map (fun p =>
      if p.1 == src then (p.1, if p.2.contains tgt then p.2 else p.2 ++ [tgt]) else p)
  else adj ++ [(src, [tgt])]

/-- Adjacency list over the `imports`/`calls` subgraph. -/
def buildAdj (edges : List SEdge) : List (String × List String) :=
  edges.foldl
    (fun adj e =>
      if e.etype == "imports" || e.etype == "calls" then adjInsert adj e.source e.target
      else adj) []

def adjLookup (adj : List (String × List String)) (node : String) : List String :=
  ((adj.find? (fun p => p.1 == node)).map Prod.snd).getD []

/-- The recursive `dfs` closure: `visited` is shared across one start node's
traversal, `path` is the current stack (its `pop()` is modelled by passing
the extended path only to recursive calls), and every found cycle
`path[idx:] + [node]` is appended to `cycles`.  Fuel only decreases on first
visits, so `2 * |edges| + 2` fuel (used by the caller) can never run out. -/
def dfs (adj : List (String × List String)) :
    Nat → String → List String → List String → List (List String) →
    List String × List (List String)
  | fuel, node, visited, path, cycles =>
    if visited.contains node then
      if path.contains node then
        (visited, cycles ++ [path.drop (path.indexOf node) ++ [node]])
      else (visited, cycles)
    else
      match fuel with
      | 0 => (visited, cycles)
      | .succ fuel' =>
        (adjLookup adj node).foldl
          (fun st nb => dfs adj fuel' nb st.1 (path ++ [node]) st.2)
          (visited ++ [node], cycles)

/-- `_detect_circular_dependencies`: DFS over the imports/calls subgraph
from every node of the changed file, accumulating cycles across starts
(each start gets a fresh `visited`/`path`). -/
def detectCircularDependencies (g : SyncGraph) (rel : String) : List (List String) :=
  let adj := buildAdj g.edges
  let startNodes := dedupStrs ((g.nodes.filter (fun n => n.file == rel)).map (fun n => n.id))
  startNodes.foldl (fun cycles start => (dfs adj (2 * g.edges.length + 2) start [] [] cycles).2) []

/-! ### Drift detection (`_detect_drift`) -/

/-- Set-of-pairs construction for `{(e.get("type"), e.get("target")) ...}`. -/
def dedupPairs (ps : List (String × String)) : List (String × String) :=
  ps.foldl (fun acc p => if acc.contains p then acc else acc ++ [p]) []

/-- `{n["id"]: n for n in nodes}` as an insertion-ordered assoc list
(first-occurrence key position, last-occurrence value). -/
def buildNodeMap (ns : List SNode) : List (String × SNode) :=
  ns.foldl
    (fun acc n =>
      if acc.any (fun p => p.1 == n.id) then
        acc.map (fun p => if p.1 == n.id then (p.1, n) else p)
      else acc ++ [(n.id, n)]) []

def nLookup (m : List (String × SNode)) (k : String) : Option SNode :=
  (m.find? (fun p => p.1 == k)).map Prod.snd

/-- `_detect_drift`: the five FLAG rules followed by the BLOCK cycle rule. -/
def detectDrift (graph : SyncGraph) (rel : String)
    (oldNodes : List SNode) (oldEdges : List SEdge)
    (newNodes : List SNode) (newEdges : List SEdge) : List Drift :=
  let oldPairs := oldEdges.map (fun e => (e.etype, e.target))
  let newPairs := newEdges.map (fun e => (e.etype, e.target))
  let added := (dedupPairs newPairs).filter (fun p => !(oldPairs.contains p))
  let w1 := (added.filter (fun p => p.1 == "api_call")).map (fun p =>
    Drift.mk "new_external_api" "FLAG" (rel ++ " added external API call to " ++ p.2))
  let oldWrite := (oldEdges.filter (fun e => e.etype == "db_write")).map (fun e => e.target)
  let oldRead := (oldEdges.filter (fun e => e.etype == "db_read")).map (fun e => e.target)
  let w2 := (added.filter (fun p => p.1 == "db_write" && !(oldWrite.contains p.2))).filterMap
    (fun p =>
      let writers := graph.edges.filter (fun e =>
        e.target == p.2 && e.etype == "db_write" && !(e.file == rel))
      if writers.isEmpty && oldRead.contains p.2 then
        some (Drift.mk "new_db_write_to_readonly" "FLAG"
          (rel ++ " added db_write to " ++ p.2 ++ ", which was previously read-only for this file"))
      else none)
  let oldEnv := (oldEdges.map (fun e => e.target)).filter (fun t => strStartsWith t "env_var:")
  let w3 := added.filterMap (fun p =>
    if !(p.2 == "") && strStartsWith p.2 "env_var:" then
      (if !(oldEnv.contains p.2) then
        some (Drift.mk "new_env_var" "FLAG" (rel ++ " added dependency on " ++ p.2))
      else none)
    else none)
  let oldMap := buildNodeMap oldNodes
  let newMap := buildNodeMap newNodes
  let w4 := newMap.filterMap (fun q =>
    match nLookup oldMap q.1 with
    | some oldN =>
      if !(oldN.ring == q.2.ring) then
        some (Drift.mk "ring_changed" "FLAG"
          (q.1 ++ " ring changed from " ++ toString oldN.ring ++ " to " ++ toString q.2.ring))
      else none
    | none => none)
  let w5 := newMap.filterMap (fun q =>
    let incoming := graph.edges.filter (fun e => e.target == q.1)
    if incoming.isEmpty && (oldMap.any (fun p => p.1 == q.1)) then
      let oldIncoming := oldEdges.filter (fun e => e.target == q.1)
      if !oldIncoming.isEmpty then
        some (Drift.mk "orphaned_code" "FLAG"
          (q.1 ++ " now has 0 callers (previously " ++ toString oldIncoming.length ++ ")"))
      else none
    else none)
  let w6 := (detectCircularDependencies graph rel).map (fun cyc =>
    Drift.mk "circular_dependency" "BLOCK"
      ("Circular dependency detected: " ++ String.intercalate " -> " cyc))
  w1 ++ w2 ++ w3 ++ w4 ++ w5 ++ w6

/-! ### One iteration of the `sync` per-file loop -/

structure SyncResult where
  graph : SyncGraph
  nodesAdded : List SNode
  nodesRemoved : List SNode
  edgesAdded : List SEdge
  edgesRemoved : List SEdge
  drift : List Drift
  deriving Repr, DecidableEq

def edgeKey3 (e : SEdge) : String × String × String :=
  (e.source, e.target, e.etype)

/-- Body of the `for fpath in files` loop in `sync` for a single file:
remove the file's data, merge the freshly extracted/classified
`newNodes`/`newEdges`, detect drift against the snapshot, and compute the
diff tracking lists. -/
def syncFileStep (g : SyncGraph) (rel : String)
    (newNodes : List SNode) (newEdges : List SEdge) : SyncResult :=
  let r := removeFileFromGraph g rel
  let g2 := mergeIntoGraph r.1 newNodes newEdges
  let oldNodes := r.2.1
  let oldEdges := r.2.2
  let drift := detectDrift g2 rel oldNodes oldEdges newNodes newEdges
  let oldIds := oldNodes.map (fun n => n.id)
  let newIds := newNodes.map (fun n => n.id)
  let oldK := oldEdges.map edgeKey3
  let newK := newEdges.map edgeKey3
  { graph := g2
    nodesAdded := newNodes.filter (fun n => !(oldIds.contains n.id))
    nodesRemoved := oldNodes.filter (fun n => !(newIds.contains n.id))
    edgesAdded := newEdges.filter (fun e => !(oldK.contains (edgeKey3 e)))
    edgesRemoved := oldEdges.filter (fun e => !(newK.contains (edgeKey3 e)))
    drift := drift }

/-! ## Scanner / assembler (`okode_scan.py`)

Dataclasses `Anchor`, `Node`, `Edge`.  `Anchor.decorator` and
`Anchor.context_lines` are carried verbatim by the code paths modelled here
and never inspected by them, so they are omitted from the structure;
metadata is a string-valued dict (the assembler only reads string entries
of it). -/

structure ScanAnchor where
  file : String
  line : Int
  anchor_type : String
  name : String
  metadata : List (String × String)
  deriving Repr, DecidableEq

structure ScanNode where
  id : String
  node_type : String
  label : String
  file : String
  line : Int
  ring : String
  metadata : List (String × String)
  deriving Repr, DecidableEq

structure ScanEdge where
  source : String
  target : String
  edge_type : String
  context : String
  file : String
  line : Int
  deriving Repr, DecidableEq

/-- String-dict `get` with default (`meta.get(key, dflt)`). -/
def metaGet (m : List (String × String)) (k dflt : String) : String :=
  ((m.find? (fun p => p.1 == k)).map Prod.snd).getD dflt

/-- Python `dict.update`: overwrite existing keys in place, append new ones. -/
def dictUpdate (old new : List (String × String)) : List (String × String) :=
  new.foldl
    (fun acc q =>
      if acc.any (fun p => p.1 == q.1) then
        acc.map (fun p => if p.1 == q.1 then (p.1, q.2) else p)
      else acc ++ [q]) old

/-- `GraphAssembler.RING_MAP` with the `.get(node_type, "middle")` default. -/
def ringMap (node_type : String) : String :=
  if node_type == "route" then "inner"
  else if node_type == "page" then "inner"
  else if node_type == "component" then "inner"
  else if node_type == "endpoint" then "inner"
  else if node_type == "service_class" then "middle"
  else if node_type == "service" then "middle"
  else if node_type == "task" then "middle"
  else if node_type == "queue" then "middle"
  else if node_type == "model" then "outer"
  else if node_type == "collection" then "outer"
  else if node_type == "db_operation" then "outer"
  else if node_type == "cache_op" then "outer"
  else if node_type == "external_client" then "outer"
  else if node_type == "external_fetch" then "outer"
  else if node_type == "external_api" then "outer"
  else if node_type == "env_var" then "outer"
  else if node_type == "subprocess" then "outer"
  else if node_type == "script" then "middle"
  else "middle"

/-- `file_path.replace("\\", "/").lower()`. -/
def normPath (file_path : String) : String :=
  strLower (String.mk (file_path.data.map (fun c => if c = '\\' then '/' else c)))

def apiPathSegs : List String := ["/api/", "/routes/", "/views/", "/endpoints/", "/controllers/"]
def modelPathSegs : List String := ["/models/", "/schemas/", "/entities/"]
def servicePathSegs : List String := ["/services/", "/tasks/", "/workers/", "/jobs/"]

/-- `any(p in normalized for p in segs)`. -/
def hasSegIn (file_path : String) (segs : List String) : Bool :=
  segs.any (fun p => strContains (normPath file_path) p)

/-- `GraphAssembler._classify_ring`: ring from `RING_MAP`, then path
heuristics.  The api/routes and models/schemas overrides only fire when the
current ring is `"middle"`; the services/tasks override is unconditional. -/
def classifyRing (node_type file_path : String) : String :=
  let ring0 := ringMap node_type
  let ring1 :=
    if hasSegIn file_path apiPathSegs then
      (if ring0 == "middle" then "inner" else ring0)
    else ring0
  let ring2 :=
    if hasSegIn file_path modelPathSegs then
      (if ring1 == "middle" then "outer" else ring1)
    else ring1
  if hasSegIn file_path servicePathSegs then "middle"
  else ring2

/-- First match of `https?://([^/]+)` in `url`: scan left to right, trying
the longer alternative first, and require a non-empty domain. -/
def httpDomain (url : String) : Option String :=
  let cs := url.data
  (((List.range cs.length).filterMap (fun i =>
    let rest := cs.drop i
    if "https://".data.isPrefixOf rest then
      let dom := (rest.drop 8).takeWhile (fun c => c ≠ '/')
      (if dom.isEmpty then none else some (String.mk dom))
    else if "http://".data.isPrefixOf rest then
      let dom := (rest.drop 7).takeWhile (fun c => c ≠ '/')
      (if dom.isEmpty then none else some (String.mk dom))
    else none)).head?)

/-- `GraphAssembler._anchor_to_node_id`. -/
def anchorToNodeId (a : ScanAnchor) : String :=
  let atype := a.anchor_type
  if atype == "route" then
    "endpoint:" ++ metaGet a.metadata "method" "ALL" ++ ":" ++ metaGet a.metadata "path" a.name
  else if atype == "model" then
    "collection:" ++ metaGet a.metadata "table_or_collection" (strLower a.name)
  else if atype == "task" then "task:" ++ a.name
  else if atype == "service_class" then "service:" ++ a.name
  else if atype == "env_var" then "env_var:" ++ metaGet a.metadata "var_name" a.name
  else if atype == "external_client" then "external_api:" ++ metaGet a.metadata "client" a.name
  else if atype == "external_fetch" then
    let url := metaGet a.metadata "url" a.name
    "external_api:" ++ ((httpDomain url).getD (strTake url 60))
  else if atype == "cache_op" then "cache:" ++ a.name
  else if atype == "subprocess" then "script:" ++ pathStem a.file
  else if atype == "db_operation" then "collection:" ++ strTake a.name 60
  else if atype == "queue" then "queue:" ++ a.name
  else if atype == "component" then "component:" ++ a.name
  else if atype == "page" then "page:" ++ a.name
  else atype ++ ":" ++ a.name

/-! ### `GraphAssembler.build_graph` -/

/-- One anchor of the node-creation loop: merge on id (keep earliest line,
union metadata) or create a node with ring from `_classify_ring`. -/
def anchorNodeStep (nodes : List (String × ScanNode)) (a : ScanAnchor) :
    List (String × ScanNode) :=
  let node_id := anchorToNodeId a
  if nodes.any (fun p => p.1 == node_id) then
    nodes.map (fun p =>
      if p.1 == node_id then
        let ex := p.2
        let ex :=
          if a.line < ex.line ∨ ex.file = "" then { ex with file := a.file, line := a.line }
          else ex
        (p.1, { ex with metadata := dictUpdate ex.metadata a.metadata })
      else p)
  else
    nodes ++ [(node_id,
      { id := node_id, node_type := a.anchor_type, label := a.name, file := a.file,
        line := a.line, ring := classifyRing a.anchor_type a.file, metadata := a.metadata })]

def anchorNodes (anchors : List ScanAnchor) : List (String × ScanNode) :=
  anchors.foldl anchorNodeStep []

/-- `nid.split(":", 1)[-1]` — everything after the first colon. -/
def afterFirstColon (nid : String) : String :=
  match splitChar nid ':' with
  | [] => nid
  | _ :: rest => if rest.isEmpty then nid else String.intercalate ":" rest

/-- Minimal-node synthesis for one endpoint id of a classified edge
(`if nid and nid not in self.nodes`). -/
def addNodeForId (e : ScanEdge) (ns : List (String × ScanNode)) (nid : String) :
    List (String × ScanNode) :=
  if !(nid == "") && !(ns.any (fun p => p.1 == nid)) then
    let ntype := if strContains nid ":" then ((splitChar nid ':').headD nid) else "unknown"
    ns ++ [(nid,
      { id := nid, node_type := ntype,
        label := if strContains nid ":" then afterFirstColon nid else nid,
        file := e.file, line := e.line,
        ring := classifyRing ntype e.file, metadata := [] })]
  else ns

/-- Minimal-node synthesis for both endpoints of every classified edge. -/
def addLlmNodes (nodes : List (String × ScanNode)) (llm_edges : List ScanEdge) :
    List (String × ScanNode) :=
  llm_edges.foldl (fun ns e => [e.source, e.target].foldl (addNodeForId e) ns) nodes

def scanKey3 (e : ScanEdge) : String × String × String :=
  (e.source, e.target, e.edge_type)

/-- Edge dedup loop of `build_graph`: key is `(source, target, edge_type)` —
the file is *not* part of the key.  Returns the kept edges and the `seen`
key set. -/
def llmDedup (llm_edges : List ScanEdge) :
    List ScanEdge × List (String × String × String) :=
  llm_edges.foldl
    (fun st e =>
      if st.2.contains (scanKey3 e) then st
      else (st.1 ++ [e], st.2 ++ [scanKey3 e])) ([], [])

/-- `_create_implicit_edges`: env-var anchors yield a `uses` edge from a
synthesized `service:<module>` node (created if absent), external-client
anchors a `calls` edge and cache-op anchors a `reads`/`writes` edge — the
latter two without ensuring their source node exists. -/
def implicitStep (st : List (String × ScanNode) × List (String × String × String) × List ScanEdge)
    (a : ScanAnchor) :
    List (String × ScanNode) × List (String × String × String) × List ScanEdge :=
  let nodes := st.1
  let seen := st.2.1
  let edges := st.2.2
  if a.anchor_type == "env_var" then
    let source_id := "service:" ++ pathStem a.file
    let target_id := "env_var:" ++ metaGet a.metadata "var_name" a.name
    let key := (source_id, target_id, "uses")
    if seen.contains key then st
    else
      let e1 : ScanEdge :=
        { source := source_id, target := target_id, edge_type := "uses",
          context := "Reads environment variable " ++ a.name, file := a.file, line := a.line }
      let edges := edges ++ [e1]
      let nodes :=
        if nodes.any (fun p => p.1 == source_id) then nodes
        else nodes ++ [(source_id,
          { id := source_id, node_type := "service", label := pathStem a.file,
            file := a.file, line := 0, ring := "middle", metadata := [] })]
      (nodes, seen ++ [key], edges)
  else if a.anchor_type == "external_client" then
    let source_id := "service:" ++ pathStem a.file
    let target_id := anchorToNodeId a
    let key := (source_id, target_id, "calls")
    if seen.contains key then st
    else
      let e1 : ScanEdge :=
        { source := source_id, target := target_id, edge_type := "calls",
          context := "Uses external client " ++ a.name, file := a.file, line := a.line }
      (nodes, seen ++ [key], edges ++ [e1])
  else if a.anchor_type == "cache_op" then
    let source_id := "service:" ++ pathStem a.file
    let target_id := anchorToNodeId a
    let edge_type := if strContains a.name "get" then "reads" else "writes"
    let key := (source_id, target_id, edge_type)
    if seen.contains key then st
    else
      let e1 : ScanEdge :=
        { source := source_id, target := target_id, edge_type := edge_type,
          context := "Cache operation: " ++ a.name, file := a.file, line := a.line }
      (nodes, seen ++ [key], edges ++ [e1])
  else st

structure ScanGraph where
  nodes : List (String × ScanNode)
  edges : List ScanEdge
  deriving Repr, DecidableEq

/-- `GraphAssembler.build_graph` (node/edge content; the surrounding JSON
envelope, summary counts and serialization sort order carry these values
unchanged). -/
def buildGraph (anchors : List ScanAnchor) (llm_edges : List ScanEdge) : ScanGraph :=
  let nodes1 := anchorNodes anchors
  let nodes2 := addLlmNodes nodes1 llm_edges
  let kept := llmDedup llm_edges
  let fin := anchors.foldl implicitStep (nodes2, kept.2, [])
  { nodes := fin.1, edges := kept.1 ++ fin.2.2 }

def nodeIds (g : ScanGraph) : List String := g.nodes.map Prod.fst

/-! ### Dataclass serialization (`Node.to_dict` / `Edge.to_dict`)

`dataclasses.asdict` emits the fields in declaration order under their
field names: a node's type is stored under `node_type` and an edge's type
under `edge_type`. -/

def scanNodeToDict (n : ScanNode) : JDict :=
  [("id", .str n.id), ("node_type", .str n.node_type), ("label", .str n.label),
   ("file", .str n.file), ("line", .num n.line), ("ring", .str n.ring),
   ("metadata", .obj (n.metadata.map (fun p => (p.1, JVal.str p.2))))]

def scanEdgeToDict (e : ScanEdge) : JDict :=
  [("source", .str e.source), ("target", .str e.target), ("edge_type", .str e.edge_type),
   ("context", .str e.context), ("file", .str e.file), ("line", .num e.line)]

/-! ## Query engine (`okode_query.py`)

`GraphQuery._load` indexes raw node/edge dicts: `self.nodes[node["id"]] =
node` (a `KeyError` if `id` is missing, a `TypeError` if it is unhashable)
and `self.incoming[edge["target"]].append(edge)` likewise.  The incoming
index is recomputed from the edge list on demand here, which agrees with
the dict-of-lists because scalar keys compare by value. -/

structure QIndex where
  nodes : List (JVal × JDict)
  edges : List JDict

/-- Upsert into the `self.nodes` dict keyed by a scalar JSON value. -/
def scalarEq (a b : JVal) : Bool :=
  match a, b with
  | .null, .null => true
  | .bool x, .bool y => x == y
  | .num x, .num y => x == y
  | .str x, .str y => x == y
  | _, _ => false

def nodeDictUpsert (ns : List (JVal × JDict)) (k : JVal) (v : JDict) :
    List (JVal × JDict) :=
  if ns.any (fun p => scalarEq p.1 k) then
    ns.map (fun p => if scalarEq p.1 k then (p.1, v) else p)
  else ns ++ [(k, v)]

/-- `GraphQuery._load` restricted to the node and edge indexing. -/
def loadQ (nodesIn edgesIn : List JDict) : Except String QIndex := do
  let ns ← nodesIn.foldlM
    (fun (acc : List (JVal × JDict)) node => do
      match dlookup node "id" with
      | none => .error "KeyError: id"
      | some nid =>
        if nid.isHashable then pure (nodeDictUpsert acc nid node)
        else .error "TypeError: unhashable node id")
    []
  let es ← edgesIn.foldlM
    (fun (acc : List JDict) edge => do
      match dlookup edge "source", dlookup edge "target" with
      | some s, some t =>
        if s.isHashable && t.isHashable then pure (acc ++ [edge])
        else .error "TypeError: unhashable edge endpoint"
      | _, _ => .error "KeyError: source/target")
    []
  pure { nodes := ns, edges := es }

/-- `self.incoming.get(nid, [])`. -/
def incomingOf (idx : QIndex) (nid : JVal) : List JDict :=
  idx.edges.filter (fun e =>
    match dlookup e "target" with
    | some t => scalarEq t nid
    | none => false)

def outgoingOf (idx : QIndex) (nid : JVal) : List JDict :=
  idx.edges.filter (fun e =>
    match dlookup e "source" with
    | some s => scalarEq s nid
    | none => false)

def entrypointNodeTypes : List String :=
  ["endpoint", "task", "script", "webhook", "page", "event"]

def deadCodeSinkTypes : List String :=
  ["collection", "external_api", "env_var", "cache_key"]

/-- `GraphQuery.dead_code`: the `dead` list (the final report renders this
list sorted by type/label; which nodes are listed is decided here). -/
def deadCode (idx : QIndex) : List JDict :=
  idx.nodes.filterMap (fun q =>
    let ntype := pyGetD q.2 "type" (.str "unknown")
    if entrypointNodeTypes.any (fun s => jstrEq ntype s) then none
    else if deadCodeSinkTypes.any (fun s => jstrEq ntype s) then none
    else if (incomingOf idx q.1).length == 0 then some q.2 else none)

/-- The risk-map prefilter `[e for e in self.edges if e["type"] == "api_call"]`:
a mandatory `e["type"]` subscript evaluated left to right. -/
def riskApiCallFilter : List JDict → Except String (List JDict)
  | [] => .ok []
  | e :: rest =>
    match dlookup e "type" with
    | none => .error "KeyError: type"
    | some t => (riskApiCallFilter rest).map (fun r => if jstrEq t "api_call" then e :: r else r)

/-! ## Edge classifier shim (`LLMClassifier`)

The external call and JSON parsing are modelled with an abstract JSON
parser `jp : String → Option JVal` (Python's `json.loads`, `none` =
`JSONDecodeError`) and an abstract bracket-scanner `ea` for
`_extract_json_array` (fence stripping plus first `[...]` block;
it returns the recovered array or the original text). -/

/-- Outcome of the `subprocess.run(["claude", ...])` call. -/
inductive CallOutcome where
  | timeout
  | notFound
  | otherError
  | completed (returncode : Int) (stdout : String)

/-- An edge as built by `_parse_llm_response`; `source`/`target` keep the raw
JSON values the dataclass would store. -/
structure PEdge where
  source : JVal
  target : JVal
  edge_type : JVal
  context : JVal
  file : String
  line : Int
  deriving Repr

/-- Python truthiness of the values `item.get(...)` can produce. -/
def JVal.truthy : JVal → Bool
  | .null => false
  | .bool b => b
  | .num n => !(n == 0)
  | .str s => !(s == "")
  | .arr l => !l.isEmpty
  | .obj l => !l.isEmpty

/-- Python `int(v)`: `ValueError`/`TypeError` are modelled as `none`
(`int()` on a numeral string succeeds; on other strings and on
null/list/dict it raises). -/
def pyInt : JVal → Option Int
  | .num n => some n
  | .bool b => some (if b then 1 else 0)
  | .str s => strToIntPy s
  | _ => none

/-- One item of the response array: skipped (`none`) unless it is a dict
whose `source_id` and `target_id` are truthy and whose `line` converts to
`int` (the `try` around the `Edge(...)` construction catches the
conversion errors and skips the item). -/
def itemToEdge (file_path : String) (item : JVal) : Option PEdge :=
  match item with
  | .obj d =>
    let source := pyGetD d "source_id" (.str "")
    let target := pyGetD d "target_id" (.str "")
    match pyInt (pyGetD d "line" (.num 0)) with
    | none => none
    | some line =>
      if source.truthy && target.truthy then
        some { source := source, target := target,
               edge_type := pyGetD d "edge_type" (.str "unknown"),
               context := pyGetD d "context" (.str ""), file := file_path, line := line }
      else none
  | _ => none

/-- `_try_parse_json`: parse, returning the original text on failure. -/
def tryParseJson (jp : String → Option JVal) (text : String) : JVal :=
  (jp text).getD (.str text)

/-- The unwrap pipeline of `_parse_llm_response` before the item loop. -/
def unwrapResponse (jp : String → Option JVal) (ea : String → JVal)
    (raw_output : String) : JVal :=
  let parsed := tryParseJson jp (strTrim raw_output)
  let parsed :=
    match parsed with
    | .obj d =>
      match dlookup d "result" with
      | some (.str inner) => tryParseJson jp inner
      | some (.arr items) => .arr items
      | _ => parsed
    | _ => parsed
  match parsed with
  | .str s => ea s
  | _ => parsed

/-- `_parse_llm_response`. -/
def parseLlmResponse (jp : String → Option JVal) (ea : String → JVal)
    (raw_output file_path : String) : List PEdge :=
  match unwrapResponse jp ea raw_output with
  | .arr items => items.filterMap (itemToEdge file_path)
  | _ => []

/-- `_classify_file`: timeout, a missing CLI binary, any other exception and
a non-zero exit all yield zero edges for the file. -/
def classifyFile (jp : String → Option JVal) (ea : String → JVal)
    (file_path : String) (outcome : CallOutcome) : List PEdge :=
  match outcome with
  | .timeout => []
  | .notFound => []
  | .otherError => []
  | .completed rc stdout =>
    if !(rc == 0) then [] else parseLlmResponse jp ea stdout file_path

/-! ## Anchor extraction control flow (`StaticAnalyzer`)

The AST/regex detector bodies are long regex passes whose content no claim
depends on; they enter the model as function parameters.  What is modelled
is the control flow of `_analyze_python` (catching `SyntaxError` and always
running the five regex detectors) and of the `analyze_files` batch loop
(skipping unreadable files, never aborting). -/

/-- `_analyze_python` over an abstract parser (`ast.parse`, `α` the tree
type) and abstract detector functions of the relative path and source
lines. -/
def analyzePython {α : Type}
    (parse : List String → Except String α)
    (astRoutes astModels astTasks astClasses : String → α → List String → List ScanAnchor)
    (rEnv rExt rCache rSub rDb : String → List String → List ScanAnchor)
    (rel_path : String) (source_lines : List String) : List ScanAnchor :=
  let treeOpt : Option α :=
    match parse source_lines with
    | .ok t => some t
    | .error _ => none
  (match treeOpt with
   | some t =>
     astRoutes rel_path t source_lines ++ astModels rel_path t source_lines ++
       astTasks rel_path t source_lines ++ astClasses rel_path t source_lines
   | none => []) ++
    (rEnv rel_path source_lines ++ rExt rel_path source_lines ++
      rCache rel_path source_lines ++ rSub rel_path source_lines ++
      rDb rel_path source_lines)

/-- One file of the `analyze_files` batch: unreadable files are skipped,
Python files go through `_analyze_python`, JS/TS through the regex-only
`_analyze_js_ts` (abstract here), anything else contributes nothing. -/
inductive FileKind where
  | python
  | jsTs
  | other

structure FileInput where
  rel : String
  content : Except String (List String)
  kind : FileKind

def analyzeOneFile {α : Type}
    (parse : List String → Except String α)
    (astRoutes astModels astTasks astClasses : String → α → List String → List ScanAnchor)
    (rEnv rExt rCache rSub rDb : String → List String → List ScanAnchor)
    (analyzeJsTs : String → List String → List ScanAnchor)
    (f : FileInput) : List ScanAnchor :=
  match f.content with
  | .error _ => []
  | .ok source_lines =>
    match f.kind with
    | .python =>
      analyzePython parse astRoutes astModels astTasks astClasses
        rEnv rExt rCache rSub rDb f.rel source_lines
    | .jsTs => analyzeJsTs f.rel source_lines
    | .other => []

/-- `StaticAnalyzer.analyze_files`. -/
def analyzeFiles {α : Type}
    (parse : List String → Except String α)
    (astRoutes astModels astTasks astClasses : String → α → List String → List ScanAnchor)
    (rEnv rExt rCache rSub rDb : String → List String → List ScanAnchor)
    (analyzeJsTs : String → List String → List ScanAnchor)
    (files : List FileInput) : List ScanAnchor :=
  files.foldl
    (fun acc f =>
      acc ++ analyzeOneFile parse astRoutes astModels astTasks astClasses
        rEnv rExt rCache rSub rDb analyzeJsTs f) []

/-! ## Concrete example data used by witnesses and counterexamples -/

/-- A node of file `a.py`. -/
def exNodeA : SNode := { id := "n:A", file := "a.py", ring := 0 }

/-- An edge recorded for file `b.py` whose target is `exNodeA`. -/
def exEdgeCross : SEdge :=
  { source := "x:B", target := "n:A", etype := "calls", context := "", file := "b.py", line := 1 }

/-- An edge of `b.py` not touching any `a.py` node. -/
def exEdgeOther : SEdge :=
  { source := "x:B", target := "x:C", etype := "calls", context := "", file := "b.py", line := 2 }

def exGraph1 : SyncGraph := { nodes := [exNodeA], edges := [exEdgeCross, exEdgeOther] }

def exScanEdgeF1 : ScanEdge :=
  { source := "service:a", target := "collection:users", edge_type := "db_read",
    context := "q", file := "f1.py", line := 1 }

/-- Same relationship as `exScanEdgeF1`, differing only in the file field. -/
def exScanEdgeF2 : ScanEdge := { exScanEdgeF1 with file := "f2.py" }

/-- A route anchor located in a `models/` directory. -/
def exModelDirRouteAnchor : ScanAnchor :=
  { file := "src/models/a.py", line := 5, anchor_type := "route", name := "GET:/x",
    metadata := [("method", "GET"), ("path", "/x")] }

/-- An external-client anchor (its implicit edge gets a `service:` source
node that is never synthesized). -/
def exExtClientAnchor : ScanAnchor :=
  { file := "billing/pay.py", line := 3, anchor_type := "external_client",
    name := "stripe", metadata := [("client", "stripe")] }

def exEndpointNode : ScanNode :=
  { id := "endpoint:GET:/health", node_type := "endpoint", label := "GET /health",
    file := "api/health.py", line := 1, ring := "inner", metadata := [] }

def exDeadNodeDict : JDict := [("id", .str "service:orphan"), ("type", .str "service")]

def mkCallsEdge (s t : String) (f : String) : SEdge :=
  { source := s, target := t, etype := "calls", context := "", file := f, line := 0 }

def exNodeSvcA : SNode := { id := "svc:A", file := "a.py", ring := 0 }

/-- Graph with calls edges `A → C`, `C → B`, `B → A` and `A → B` (in that
insertion order); only `A` belongs to the changed file `a.py`. -/
def exCycleGraph : SyncGraph :=
  { nodes := [exNodeSvcA,
              { id := "svc:B", file := "b.py", ring := 0 },
              { id := "svc:C", file := "c.py", ring := 0 }],
    edges := [mkCallsEdge "svc:A" "svc:C" "a.py", mkCallsEdge "svc:C" "svc:B" "c.py",
              mkCallsEdge "svc:B" "svc:A" "b.py", mkCallsEdge "svc:A" "svc:B" "a.py"] }

/-- Two-node graph in which `A`'s and `B`'s only calls edges are the
mutual pair. -/
def exTwoNodeGraph : SyncGraph :=
  { nodes := [exNodeSvcA],
    edges := [mkCallsEdge "svc:A" "svc:B" "a.py", mkCallsEdge "svc:B" "svc:A" "b.py"] }

def exEnvAnchor : ScanAnchor :=
  { file := "billing/pay.py", line := 7, anchor_type := "env_var", name := "STRIPE_KEY",
    metadata := [("var_name", "STRIPE_KEY")] }

/-- First-occurrence dedup by the sync four-tuple key (what the merge loop
does to the new edges of a file, seen in isolation). -/
def dedup4Aux (kept : List SEdge) : List SEdge → List SEdge
  | [] => kept
  | e :: rest => if hasKey4 kept e then dedup4Aux kept rest else dedup4Aux (kept ++ [e]) rest

def dedup4 (es : List SEdge) : List SEdge := dedup4Aux [] es

def idFilter (ns : List SNode) (k : String) : List SNode := ns.filter (fun n => n.id == k)

/-- The node a Python dict comprehension `{n["id"]: n}` stores under `k`. -/
def lastWith (ns : List SNode) (k : String) : Option SNode := (idFilter ns k).getLast?

/-- Per-id trace of the upsert loop: each new node with this id either
replaces the head of the current per-id list or starts it. -/
def perId : List SNode → List SNode → List SNode
  | cur, [] => cur
  | cur, n :: rest =>
    match cur with
    | [] => perId [n] rest
    | _ :: xs => perId (n :: xs) rest

def emptySyncGraph : SyncGraph := { nodes := [], edges := [] }

def exIdemNodes : List SNode :=
  [{ id := "svc:A", file := "a.py", ring := 0 }, { id := "svc:B", file := "a.py", ring := 0 }]

def exIdemEdges : List SEdge :=
  [mkCallsEdge "svc:A" "svc:B" "a.py", mkCallsEdge "svc:B" "svc:A" "a.py"]

/-- The second sync run over `a.py` with identical extraction output. -/
def exSecondRun : SyncResult :=
  syncFileStep (syncFileStep emptySyncGraph "a.py" exIdemNodes exIdemEdges).graph
    "a.py" exIdemNodes exIdemEdges

/-! ## C1 — edge removal during sync -/

/-- C1 (counterexample): the removal step for `a.py` deletes an edge that
belongs to `b.py` because its target is a removed `a.py` node, contradicting
the claim that such cross-file edges are never deleted by the removal
step. -/
theorem c1_counterexample :
    exEdgeCross ∈ exGraph1.edges ∧ exEdgeCross.file ≠ "a.py" ∧
      exEdgeCross.target ∈ (nodesForFile exGraph1 "a.py").map (fun n => n.id) ∧
      exEdgeCross ∉ ((removeFileFromGraph exGraph1 "a.py").1).edges := by
  decide

/-- C1 (amended): `_remove_file_from_graph` keeps exactly those edges whose
file differs from the removed file *and* whose source and target are not
ids of removed nodes; a cross-file edge referencing a removed node is
deleted, a cross-file edge not touching the removed nodes survives
unchanged. -/
theorem c1_amended (g : SyncGraph) (rel : String) (e : SEdge) (he : e ∈ g.edges) :
    e ∈ ((removeFileFromGraph g rel).1).edges ↔
      (e.file ≠ rel ∧
        e.source ∉ (nodesForFile g rel).map (fun n => n.id) ∧
        e.target ∉ (nodesForFile g rel).map (fun n => n.id)) := by
  simp only [removeFileFromGraph, List.mem_filter, he, true_and, Bool.and_eq_true,
    Bool.not_eq_true']
  constructor
  · rintro ⟨⟨h1, h2⟩, h3⟩
    refine ⟨by simpa using h1, ?_, ?_⟩
    · simpa using h2
    · simpa using h3
  · rintro ⟨h1, h2, h3⟩
    refine ⟨⟨by simpa using h1, by simpa using h2⟩, by simpa using h3⟩

/-- C1 witness: the amended description evaluated on the concrete graph —
the cross-file edge not touching removed nodes is kept. -/
theorem c1_witness :
    exEdgeOther ∈ exGraph1.edges ∧
      (exEdgeOther ∈ ((removeFileFromGraph exGraph1 "a.py").1).edges ↔
        (exEdgeOther.file ≠ "a.py" ∧
          exEdgeOther.source ∉ (nodesForFile exGraph1 "a.py").map (fun n => n.id) ∧
          exEdgeOther.target ∉ (nodesForFile exGraph1 "a.py").map (fun n => n.id))) :=
  ⟨by decide, c1_amended exGraph1 "a.py" exEdgeOther (by decide)⟩

/-! ## C2 — edge deduplication keys -/

/-- C2 (counterexample): two classified edges that differ only in their
file field are *not* both kept by the full-build assembler — `build_graph`
deduplicates on `(source, target, edge_type)` without the file. -/
theorem c2_counterexample :
    exScanEdgeF1.source = exScanEdgeF2.source ∧ exScanEdgeF1.target = exScanEdgeF2.target ∧
      exScanEdgeF1.edge_type = exScanEdgeF2.edge_type ∧ exScanEdgeF1.file ≠ exScanEdgeF2.file ∧
      (buildGraph [] [exScanEdgeF1, exScanEdgeF2]).edges = [exScanEdgeF1] := by
  decide

/-- C2 (amended): sync's `_merge_into_graph` deduplicates by the four-tuple
`(source, target, type, file)` — equal-on-all-four edges collapse to the
first and edges differing only in file are both kept — while the full-build
assembler `build_graph` deduplicates by `(source, target, edge_type)` alone,
collapsing the same relationship from two different files into one edge. -/
theorem c2_amended :
    (∀ e e' : SEdge, edgeKey4 e = edgeKey4 e' → mergeEdges [] [e, e'] = [e]) ∧
    (∀ e e' : SEdge, edgeKey3 e = edgeKey3 e' → e.file ≠ e'.file →
      mergeEdges [] [e, e'] = [e, e']) ∧
    (∀ (g : SyncGraph) (e : SEdge), hasKey4 g.edges e = true →
      (mergeIntoGraph g [] [e]).edges = g.edges) ∧
    (∀ (g : SyncGraph) (e : SEdge), hasKey4 g.edges e = false →
      (mergeIntoGraph g [] [e]).edges = g.edges ++ [e]) ∧
    (∀ e e' : ScanEdge, scanKey3 e = scanKey3 e' →
      (buildGraph [] [e, e']).edges = [e]) := by
  refine ⟨?_, ?_, ?_, ?_, ?_⟩
  · intro e e' h
    simp [mergeEdges, hasKey4, h]
  · intro e e' h3 hf
    have h4 : edgeKey4 e ≠ edgeKey4 e' := by
      simp only [edgeKey4, edgeKey3] at h3 ⊢
      intro hc
      exact hf (by
        have := congrArg (fun q => q.2.2.2) hc
        simpa using this)
    simp [mergeEdges, hasKey4, h4]
  · intro g e h
    simp [mergeIntoGraph, mergeNodes, mergeEdges, h]
  · intro g e h
    simp [mergeIntoGraph, mergeNodes, mergeEdges, h]
  · intro e e' h
    simp [buildGraph, llmDedup, anchorNodes, List.foldl, scanKey3] at *
    simp [h]

/-- C2 witness: the amended dedup behaviour at concrete inputs. -/
theorem c2_witness :
    edgeKey3 ({ exEdgeCross with file := "c.py" } : SEdge) = edgeKey3 exEdgeCross ∧
      mergeEdges [] [{ exEdgeCross with file := "c.py" }, exEdgeCross] =
        [{ exEdgeCross with file := "c.py" }, exEdgeCross] ∧
      scanKey3 exScanEdgeF1 = scanKey3 exScanEdgeF2 ∧
      (buildGraph [] [exScanEdgeF1, exScanEdgeF2]).edges = [exScanEdgeF1] :=
  ⟨by decide,
   c2_amended.2.1 { exEdgeCross with file := "c.py" } exEdgeCross (by decide) (by decide),
   by decide,
   c2_amended.2.2.2.2 exScanEdgeF1 exScanEdgeF2 (by decide)⟩

/-! ## C10 — ring classification heuristics -/

/-- C10 (counterexample): a route node assembled from a file in a `models/`
directory keeps ring `"inner"` — the model/schema/entity path heuristic
does not demote it to `"outer"` because the type-derived ring is not
`"middle"`. -/
theorem c10_counterexample :
    (buildGraph [exModelDirRouteAnchor] []).nodes.map (fun p => p.2.ring) = ["inner"] ∧
      hasSegIn exModelDirRouteAnchor.file modelPathSegs = true ∧
      ("inner" : String) ≠ "outer" := by
  decide

/-- C10 (amended): `_classify_ring` derives the ring from the node type and
applies the api/route/controller promotion and the model/schema/entity
demotion *only when the current ring is "middle"*; only the
service/task/worker heuristic pins the ring to middle regardless of the
type-derived ring (and it is applied last). -/
theorem c10_amended :
    (∀ t p, ringMap t = "middle" → hasSegIn p apiPathSegs = true →
      hasSegIn p servicePathSegs = false → classifyRing t p = "inner") ∧
    (∀ t p, ringMap t = "middle" → hasSegIn p apiPathSegs = false →
      hasSegIn p modelPathSegs = true → hasSegIn p servicePathSegs = false →
      classifyRing t p = "outer") ∧
    (∀ t p, ringMap t ≠ "middle" → hasSegIn p servicePathSegs = false →
      classifyRing t p = ringMap t) ∧
    (∀ t p, hasSegIn p servicePathSegs = true → classifyRing t p = "middle") := by
  refine ⟨?_, ?_, ?_, ?_⟩
  · intro t p h0 hapi hsvc
    simp [classifyRing, h0, hapi, hsvc]
  · intro t p h0 hapi hmod hsvc
    simp [classifyRing, h0, hapi, hmod, hsvc]
  · intro t p h0 hsvc
    have hb : (ringMap t == "middle") = false := by
      simpa using h0
    simp only [classifyRing, hb, hsvc]
    cases hapi : hasSegIn p apiPathSegs <;>
      cases hmod : hasSegIn p modelPathSegs <;> simp [hb]
  · intro t p hsvc
    simp [classifyRing, hsvc]

/-- C10 witness: the amended heuristics at concrete inputs. -/
theorem c10_witness :
    classifyRing "service" "src/api/a.py" = "inner" ∧
      classifyRing "service" "src/models/a.py" = "outer" ∧
      classifyRing "route" "src/models/a.py" = "inner" ∧
      classifyRing "endpoint" "src/services/a.py" = "middle" :=
  ⟨c10_amended.1 "service" "src/api/a.py" (by decide) (by decide) (by decide),
   c10_amended.2.1 "service" "src/models/a.py" (by decide) (by decide) (by decide) (by decide),
   by
     have := c10_amended.2.2.1 "route" "src/models/a.py" (by decide) (by decide)
     simpa [ringMap] using this,
   c10_amended.2.2.2 "endpoint" "src/services/a.py" (by decide)⟩

/-! ## C4 — serialization key mismatch between assembler and query engine -/

/-- Every serialized scan edge lacks a `type` key (its type is under
`edge_type`). -/
theorem scanEdgeToDict_type_none (e : ScanEdge) : dlookup (scanEdgeToDict e) "type" = none :=
  rfl

/-- C4: nodes serialized by the full-build assembler store their type under
`node_type` and edges under `edge_type`; the query engine's
`node.get("type", "unknown")` therefore sees `"unknown"` for every such
node (so no entrypoint-type check can ever match one, dead-code's
exclusion included), and any query evaluating `edge["type"]` on such an
edge fails with a `KeyError`. -/
theorem c4_serialization_mismatch :
    (∀ n : ScanNode, pyGetD (scanNodeToDict n) "type" (.str "unknown") = .str "unknown") ∧
    (∀ (n : ScanNode) (s : String), s ∈ entrypointNodeTypes →
      jstrEq (pyGetD (scanNodeToDict n) "type" (.str "unknown")) s = false) ∧
    (∀ e : ScanEdge, dlookup (scanEdgeToDict e) "type" = none) ∧
    (∀ (es : List JDict) (e : ScanEdge), scanEdgeToDict e ∈ es →
      ∃ msg, riskApiCallFilter es = .error msg) := by
  refine ⟨fun n => rfl, ?_, fun e => rfl, ?_⟩
  · intro n s hs
    fin_cases hs <;> rfl
  · intro es e he
    induction es with
    | nil => cases he
    | cons d rest ih =>
      rcases List.mem_cons.mp he with h | h
      · refine ⟨"KeyError: type", ?_⟩
        rw [← h]
        simp [riskApiCallFilter, scanEdgeToDict_type_none]
      · obtain ⟨msg, hmsg⟩ := ih h
        cases hd : dlookup d "type" with
        | none => exact ⟨"KeyError: type", by simp [riskApiCallFilter, hd]⟩
        | some t => exact ⟨msg, by simp [riskApiCallFilter, hd, hmsg, Except.map]⟩

/-- C4 witness: the mismatch at a concrete endpoint node and edge. -/
theorem c4_witness :
    pyGetD (scanNodeToDict exEndpointNode) "type" (.str "unknown") = .str "unknown" ∧
      jstrEq (pyGetD (scanNodeToDict exEndpointNode) "type" (.str "unknown")) "endpoint" = false ∧
      (∃ msg, riskApiCallFilter [scanEdgeToDict exScanEdgeF1] = .error msg) :=
  ⟨c4_serialization_mismatch.1 exEndpointNode,
   c4_serialization_mismatch.2.1 exEndpointNode "endpoint" (by decide),
   c4_serialization_mismatch.2.2.2 [scanEdgeToDict exScanEdgeF1] exScanEdgeF1
     (List.mem_singleton.mpr rfl)⟩

/-! ## C6 — extraction degrades on parse failure, never aborts the batch -/

/-- Accumulator form of the `analyze_files` fold. -/
theorem foldl_app_acc {β γ : Type} (g : β → List γ) :
    ∀ (l : List β) (acc : List γ),
      l.foldl (fun a x => a ++ g x) acc = acc ++ l.foldl (fun a x => a ++ g x) []
  | [], acc => by simp
  | x :: xs, acc => by
    simp only [List.foldl_cons]
    rw [foldl_app_acc g xs (acc ++ g x), foldl_app_acc g xs ([] ++ g x)]
    simp

/-- C6: `_analyze_python` catches the parse failure and still returns
exactly the anchors of the five regex detectors, and the `analyze_files`
batch is the concatenation of per-file results — a file whose native parse
fails degrades locally instead of aborting the batch. -/
theorem c6_parse_failure_degrades :
    (∀ (α : Type) (parse : List String → Except String α)
      astR astM astT astC rEnv rExt rCache rSub rDb rel lines msg,
      parse lines = Except.error msg →
      analyzePython parse astR astM astT astC rEnv rExt rCache rSub rDb rel lines =
        rEnv rel lines ++ rExt rel lines ++ rCache rel lines ++ rSub rel lines ++
          rDb rel lines) ∧
    (∀ (α : Type) (parse : List String → Except String α)
      astR astM astT astC rEnv rExt rCache rSub rDb aJs xs f ys,
      analyzeFiles parse astR astM astT astC rEnv rExt rCache rSub rDb aJs (xs ++ f :: ys) =
        analyzeFiles parse astR astM astT astC rEnv rExt rCache rSub rDb aJs xs ++
          analyzeOneFile parse astR astM astT astC rEnv rExt rCache rSub rDb aJs f ++
          analyzeFiles parse astR astM astT astC rEnv rExt rCache rSub rDb aJs ys) := by
  constructor
  · intro α parse astR astM astT astC rEnv rExt rCache rSub rDb rel lines msg h
    simp [analyzePython, h]
  · intro α parse astR astM astT astC rEnv rExt rCache rSub rDb aJs xs f ys
    simp only [analyzeFiles, List.foldl_append, List.foldl_cons]
    rw [foldl_app_acc]

/-- C6 witness: a Python file whose parse fails contributes exactly its
regex anchors, evaluated on concrete detector functions. -/
theorem c6_witness :
    analyzePython (α := Unit) (fun _ => Except.error "SyntaxError")
      (fun _ _ _ => []) (fun _ _ _ => []) (fun _ _ _ => []) (fun _ _ _ => [])
      (fun rel _ => [{ file := rel, line := 1, anchor_type := "env_var", name := "HOME",
                       metadata := [("var_name", "HOME")] }])
      (fun _ _ => []) (fun _ _ => []) (fun _ _ => []) (fun _ _ => [])
      "a.py" ["x = os.getenv('HOME')"] =
      [{ file := "a.py", line := 1, anchor_type := "env_var", name := "HOME",
         metadata := [("var_name", "HOME")] }] := by
  rw [c6_parse_failure_degrades.1 Unit (fun _ => Except.error "SyntaxError")
    (fun _ _ _ => []) (fun _ _ _ => []) (fun _ _ _ => []) (fun _ _ _ => [])
    (fun rel _ => [{ file := rel, line := 1, anchor_type := "env_var", name := "HOME",
                     metadata := [("var_name", "HOME")] }])
    (fun _ _ => []) (fun _ _ => []) (fun _ _ => []) (fun _ _ => [])
    "a.py" ["x = os.getenv('HOME')"] "SyntaxError" rfl]
  rfl

/-! ## C7 — classifier failure handling -/

/-- C7: the external classification call yields zero edges on timeout, a
missing CLI, any other exception, a non-zero exit, or an unparseable
response; within a parsed array, non-dict items and items with a missing or
empty source/target id (or an unconvertible line) are skipped individually
while the remaining well-formed edges are returned. -/
theorem c7_classifier_error_handling :
    (∀ jp ea fp, classifyFile jp ea fp .timeout = []) ∧
    (∀ jp ea fp, classifyFile jp ea fp .notFound = []) ∧
    (∀ jp ea fp, classifyFile jp ea fp .otherError = []) ∧
    (∀ jp ea fp rc out, rc ≠ 0 → classifyFile jp ea fp (.completed rc out) = []) ∧
    (∀ jp ea fp out, (∀ items, unwrapResponse jp ea out ≠ .arr items) →
      classifyFile jp ea fp (.completed 0 out) = []) ∧
    (∀ jp ea fp out items, unwrapResponse jp ea out = .arr items →
      classifyFile jp ea fp (.completed 0 out) = items.filterMap (itemToEdge fp)) ∧
    (∀ fp item, (∀ d, item ≠ .obj d) → itemToEdge fp item = none) ∧
    (∀ fp d, ((pyGetD d "source_id" (.str "")).truthy = false ∨
        (pyGetD d "target_id" (.str "")).truthy = false) →
      itemToEdge fp (.obj d) = none) ∧
    (∀ fp d src tgt k, pyGetD d "source_id" (.str "") = .str src → src ≠ "" →
      pyGetD d "target_id" (.str "") = .str tgt → tgt ≠ "" →
      pyInt (pyGetD d "line" (.num 0)) = some k →
      itemToEdge fp (.obj d) =
        some { source := .str src, target := .str tgt,
               edge_type := pyGetD d "edge_type" (.str "unknown"),
               context := pyGetD d "context" (.str ""), file := fp, line := k }) := by
  refine ⟨fun jp ea fp => rfl, fun jp ea fp => rfl, fun jp ea fp => rfl, ?_, ?_, ?_, ?_, ?_, ?_⟩
  · intro jp ea fp rc out h
    have hb : (rc == 0) = false := by simpa using h
    simp [classifyFile, hb]
  · intro jp ea fp out h
    cases hu : unwrapResponse jp ea out <;>
      simp [classifyFile, parseLlmResponse, hu]
    exact absurd hu (h _)
  · intro jp ea fp out items hu
    simp [classifyFile, parseLlmResponse, hu]
  · intro fp item h
    cases item <;> simp [itemToEdge]
    exact absurd rfl (h _)
  · intro fp d h
    cases hp : pyInt (pyGetD d "line" (.num 0)) with
    | none => simp [itemToEdge, hp]
    | some k =>
      rcases h with h | h <;> simp [itemToEdge, hp, h]
  · intro fp d src tgt k hs hse ht hte hline
    have hst : (JVal.truthy (pyGetD d "source_id" (.str ""))) = true := by
      rw [hs]; simpa [JVal.truthy] using hse
    have htt : (JVal.truthy (pyGetD d "target_id" (.str ""))) = true := by
      rw [ht]; simpa [JVal.truthy] using hte
    simp [itemToEdge, hline, hs, ht, JVal.truthy, hse, hte]

/-- C7 witness: the error branches and the per-item skipping at concrete
inputs (`jp0` rejects everything, so the completed-call response is
unparseable). -/
theorem c7_witness :
    classifyFile (fun _ => none) (fun s => .str s) "f.py" .timeout = [] ∧
      classifyFile (fun _ => none) (fun s => .str s) "f.py" (.completed 1 "[]") = [] ∧
      classifyFile (fun _ => none) (fun s => .str s) "f.py" (.completed 0 "garbage") = [] ∧
      itemToEdge "f.py" (.obj [("target_id", .str "t")]) = none :=
  ⟨c7_classifier_error_handling.1 (fun _ => none) (fun s => .str s) "f.py",
   c7_classifier_error_handling.2.2.2.1 (fun _ => none) (fun s => .str s) "f.py" 1 "[]"
     (by decide),
   c7_classifier_error_handling.2.2.2.2.1 (fun _ => none) (fun s => .str s) "f.py" "garbage"
     (fun items h => by simp [unwrapResponse, tryParseJson, strTrim] at h),
   c7_classifier_error_handling.2.2.2.2.2.2.2.1 "f.py" [("target_id", .str "t")]
     (Or.inl (by rfl))⟩

/-! ## C9 — dead-code exclusions -/

/-- C9: `dead_code` never lists a node whose (query-engine) type is an
entrypoint type (`endpoint`, `task`, `script`, `webhook`, `page`, `event`)
— even with zero incoming edges — nor one of the data-sink types
(`collection`, `external_api`, `env_var`, `cache_key`). -/
theorem c9_dead_code_exclusions (ns es : List JDict) (idx : QIndex)
    (hload : loadQ ns es = .ok idx) :
    ∀ d ∈ deadCode idx, ∀ s, s ∈ entrypointNodeTypes ∨ s ∈ deadCodeSinkTypes →
      jstrEq (pyGetD d "type" (.str "unknown")) s = false := by
  intro d hd s hs
  rcases List.mem_filterMap.mp hd with ⟨q, hq, hf⟩
  cases h1 : entrypointNodeTypes.any (fun t => jstrEq (pyGetD q.2 "type" (.str "unknown")) t) with
  | true => simp [h1] at hf
  | false =>
    cases h2 : deadCodeSinkTypes.any (fun t => jstrEq (pyGetD q.2 "type" (.str "unknown")) t) with
    | true => simp [h1, h2] at hf
    | false =>
      have hdq : d = q.2 := by
        cases h3 : ((incomingOf idx q.1).length == 0) with
        | true =>
          simp [h1, h2, h3] at hf
          exact hf.symm
        | false => simp [h1, h2, h3] at hf
      subst hdq
      have h1' := List.any_eq_false.mp h1
      have h2' := List.any_eq_false.mp h2
      rcases hs with hs | hs
      · exact Bool.eq_false_iff.mpr (h1' s hs)
      · exact Bool.eq_false_iff.mpr (h2' s hs)

/-- C9 witness: a loaded one-node graph whose dead node is a service. -/
theorem c9_witness :
    ∃ idx, loadQ [exDeadNodeDict] [] = .ok idx ∧
      ∀ d ∈ deadCode idx, ∀ s, s ∈ entrypointNodeTypes ∨ s ∈ deadCodeSinkTypes →
        jstrEq (pyGetD d "type" (.str "unknown")) s = false :=
  ⟨{ nodes := [(.str "service:orphan", exDeadNodeDict)], edges := [] }, rfl,
   c9_dead_code_exclusions [exDeadNodeDict] []
     { nodes := [(.str "service:orphan", exDeadNodeDict)], edges := [] } rfl⟩

/-! ## C8 — circular-dependency detection -/

/-- The `cycles` accumulator of `dfs` only ever grows by appending. -/
theorem dfs_cycles_ext :
    ∀ (fuel : Nat) (adj : List (String × List String)) (node : String)
      (visited path : List String) (cycles : List (List String)),
      ∃ t, (dfs adj fuel node visited path cycles).2 = cycles ++ t := by
  intro fuel
  induction fuel with
  | zero =>
    intro adj node visited path cycles
    rw [dfs]
    by_cases h1 : node ∈ visited
    · by_cases h2 : node ∈ path
      · exact ⟨[path.drop (path.indexOf node) ++ [node]], by simp [h1, h2]⟩
      · exact ⟨[], by simp [h1, h2]⟩
    · exact ⟨[], by simp [h1]⟩
  | succ f ih =>
    intro adj node visited path cycles
    rw [dfs]
    by_cases h1 : node ∈ visited
    · by_cases h2 : node ∈ path
      · exact ⟨[path.drop (path.indexOf node) ++ [node]], by simp [h1, h2]⟩
      · exact ⟨[], by simp [h1, h2]⟩
    · have haux : ∀ (l : List String) (st : List String × List (List String)),
          ∃ t, (l.foldl (fun st nb => dfs adj f nb st.1 (path ++ [node]) st.2) st).2 =
            st.2 ++ t := by
        intro l
        induction l with
        | nil => intro st; exact ⟨[], by simp⟩
        | cons x xs ihl =>
          intro st
          simp only [List.foldl_cons]
          obtain ⟨t2, h2⟩ := ihl (dfs adj f x st.1 (path ++ [node]) st.2)
          obtain ⟨t1, h1⟩ := ih adj x st.1 (path ++ [node]) st.2
          exact ⟨t1 ++ t2, by rw [h2, h1, List.append_assoc]⟩
      obtain ⟨t, ht⟩ := haux (adjLookup adj node) (visited ++ [node], cycles)
      refine ⟨t, ?_⟩
      have hcond : ¬ ((visited.contains node) = true) := by simpa using h1
      rw [if_neg hcond]
      exact ht

/-- Innermost step of the two-node cycle: revisiting `A` with `A` on the
path records the cycle `A -> B -> A`. -/
theorem dfs_two_cycle_inner (adj : List (String × List String)) (A B : String)
    (f : Nat) (cycles : List (List String)) :
    dfs adj f A [A, B] [A, B] cycles = ([A, B], cycles ++ [[A, B, A]]) := by
  rw [dfs.eq_def]
  have h2 : List.indexOf A [A, B] = 0 := List.indexOf_cons_self A [B]
  simp [h2]

/-- Second step: visiting `B` (unvisited since `A ≠ B`) explores its only
neighbour `A`. -/
theorem dfs_two_cycle_mid (adj : List (String × List String)) (A B : String)
    (hAB : A ≠ B) (hB : adjLookup adj B = [A])
    (f : Nat) (cycles : List (List String)) :
    dfs adj (Nat.succ f) B [A] [A] cycles = ([A, B], cycles ++ [[A, B, A]]) := by
  rw [dfs]
  have h1 : ¬ (([A].contains B) = true) := by
    intro hc
    have hm : B ∈ [A] := by simpa using hc
    exact hAB (List.mem_singleton.mp hm).symm
  rw [if_neg h1, hB]
  simp only [List.foldl_cons, List.foldl_nil, List.nil_append]
  exact dfs_two_cycle_inner adj A B f cycles

/-- Start step: a DFS from `A` whose only imports/calls out-neighbour is
`B`, which in turn only points back at `A`, records exactly the cycle
`[A, B, A]`. -/
theorem dfs_two_cycle (adj : List (String × List String)) (A B : String)
    (hAB : A ≠ B) (hA : adjLookup adj A = [B]) (hB : adjLookup adj B = [A])
    (f : Nat) (cycles : List (List String)) :
    dfs adj (Nat.succ (Nat.succ f)) A [] [] cycles = ([A, B], cycles ++ [[A, B, A]]) := by
  rw [dfs]
  have h1 : ¬ ((List.contains ([] : List String) A) = true) := by simp
  rw [if_neg h1, hA]
  simp only [List.foldl_cons, List.foldl_nil, List.nil_append]
  exact dfs_two_cycle_mid adj A B hAB hB f cycles

/-- Membership in the custom set-as-list construction. -/
theorem mem_dedupStrs (l : List String) (x : String) : x ∈ dedupStrs l ↔ x ∈ l := by
  have haux : ∀ (l acc : List String),
      x ∈ l.foldl (fun acc y => if acc.contains y then acc else acc ++ [y]) acc ↔
        x ∈ acc ∨ x ∈ l := by
    intro l
    induction l with
    | nil => intro acc; simp
    | cons y ys ih =>
      intro acc
      simp only [List.foldl_cons]
      by_cases hy : (acc.contains y) = true
      · rw [if_pos hy, ih]
        have hmem : y ∈ acc := by simpa using hy
        constructor
        · rintro (h | h)
          · exact Or.inl h
          · exact Or.inr (List.mem_cons_of_mem _ h)
        · rintro (h | h)
          · exact Or.inl h
          · rcases List.mem_cons.mp h with h | h
            · exact Or.inl (h ▸ hmem)
            · exact Or.inr h
      · rw [if_neg hy, ih]
        simp only [List.mem_append, List.mem_singleton, List.mem_cons]
        tauto
  simpa [dedupStrs] using haux l []

/-- C8 (amended): whenever a node `A` of the changed file and a node `B ≠ A`
have, as their only outgoing `imports`/`calls` adjacency, the two edges
`A → B` and `B → A`, `_detect_drift` reports a `circular_dependency`
warning of severity `BLOCK` whose detail is exactly
`Circular dependency detected: A -> B -> A`.  (When `A` or `B` has further
imports/calls out-edges, the DFS can instead report a longer cycle through
`A`, so the detail need not contain `A -> B -> A` — see the
counterexample.) -/
theorem c8_amended (g : SyncGraph) (rel A B : String)
    (hstart : ∃ n ∈ g.nodes, n.id = A ∧ n.file = rel)
    (hAB : A ≠ B)
    (hA : adjLookup (buildAdj g.edges) A = [B])
    (hB : adjLookup (buildAdj g.edges) B = [A])
    (oldNodes newNodes : List SNode) (oldEdges newEdges : List SEdge) :
    Drift.mk "circular_dependency" "BLOCK"
        ("Circular dependency detected: " ++ String.intercalate " -> " [A, B, A]) ∈
      detectDrift g rel oldNodes oldEdges newNodes newEdges := by
  have hcyc : [A, B, A] ∈ detectCircularDependencies g rel := by
    obtain ⟨n, hn, hid, hfile⟩ := hstart
    have hAmem : A ∈ dedupStrs ((g.nodes.filter (fun n => n.file == rel)).map (fun n => n.id)) := by
      rw [mem_dedupStrs]
      exact List.mem_map.mpr ⟨n, List.mem_filter.mpr ⟨hn, by simp [hfile]⟩, hid⟩
    have hgen : ∀ (starts : List String) (c0 : List (List String)),
        A ∈ starts →
        [A, B, A] ∈ starts.foldl
          (fun cycles start =>
            (dfs (buildAdj g.edges) (2 * g.edges.length + 2) start [] [] cycles).2) c0 := by
      intro starts
      induction starts with
      | nil => intro c0 h; cases h
      | cons x xs ih =>
        intro c0 hx
        simp only [List.foldl_cons]
        rcases List.mem_cons.mp hx with h | h
        · subst h
          have e1 : 2 * g.edges.length + 2 = Nat.succ (Nat.succ (2 * g.edges.length)) := rfl
          rw [e1, dfs_two_cycle (buildAdj g.edges) A B hAB hA hB (2 * g.edges.length) c0]
          have hext : ∀ (xs : List String) (c : List (List String)),
              ∃ t, xs.foldl
                (fun cycles start =>
                  (dfs (buildAdj g.edges) (2 * g.edges.length + 2) start [] [] cycles).2) c =
                c ++ t := by
            intro xs
            induction xs with
            | nil => intro c; exact ⟨[], by simp⟩
            | cons y ys ihy =>
              intro c
              simp only [List.foldl_cons]
              obtain ⟨t1, h1⟩ :=
                dfs_cycles_ext (2 * g.edges.length + 2) (buildAdj g.edges) y [] [] c
              obtain ⟨t2, h2⟩ := ihy (dfs (buildAdj g.edges) (2 * g.edges.length + 2) y [] [] c).2
              exact ⟨t1 ++ t2, by rw [h2, h1, List.append_assoc]⟩
          obtain ⟨t, ht⟩ := hext xs (c0 ++ [[A, B, A]])
          rw [ht]
          exact List.mem_append_left _ (List.mem_append_right _ (List.mem_singleton.mpr rfl))
        · exact ih _ h
    exact hgen (dedupStrs ((g.nodes.filter (fun n => n.file == rel)).map (fun n => n.id)))
      [] hAmem
  unfold detectDrift
  refine List.mem_append_right _ ?_
  exact List.mem_map.mpr ⟨[A, B, A], hcyc, rfl⟩

/-- C8 (counterexample): `exCycleGraph` has `calls` edges `A → B` and
`B → A` with `A` in the changed file, yet the DFS explores `A`'s neighbour
`C` first, so the only reported cycle is `A -> C -> B -> A` and no BLOCK
warning has a detail containing `svc:A -> svc:B -> svc:A`. -/
theorem c8_counterexample :
    (∃ e ∈ exCycleGraph.edges, e.etype = "calls" ∧ e.source = "svc:A" ∧ e.target = "svc:B") ∧
      (∃ e ∈ exCycleGraph.edges, e.etype = "calls" ∧ e.source = "svc:B" ∧ e.target = "svc:A") ∧
      (∃ n ∈ exCycleGraph.nodes, n.id = "svc:A" ∧ n.file = "a.py") ∧
      (∀ w ∈ detectDrift exCycleGraph "a.py" [] [] [] [],
        ¬(w.dtype = "circular_dependency" ∧ w.severity = "BLOCK" ∧
          strContains w.detail "svc:A -> svc:B -> svc:A" = true)) := by
  decide

/-- C8 witness: the amended claim at the two-node graph. -/
theorem c8_witness :
    Drift.mk "circular_dependency" "BLOCK"
        ("Circular dependency detected: " ++
          String.intercalate " -> " ["svc:A", "svc:B", "svc:A"]) ∈
      detectDrift exTwoNodeGraph "a.py" [] [] [] [] :=
  c8_amended exTwoNodeGraph "a.py" "svc:A" "svc:B" ⟨exNodeSvcA, by decide, rfl, rfl⟩
    (by decide) (by decide) (by decide) [] [] [] []

/-! ## C3 — node-set closure of the assembled graph -/

/-- The ids present in an assembler node dict. -/
theorem mem_keys_anchorNodeStep (acc : List (String × ScanNode)) (a : ScanAnchor)
    (x : String) (hx : x ∈ acc.map Prod.fst) :
    x ∈ (anchorNodeStep acc a).map Prod.fst := by
  unfold anchorNodeStep
  by_cases h : (acc.any (fun p => p.1 == anchorToNodeId a)) = true
  · rw [if_pos h]
    simpa [List.map_map, Function.comp, apply_ite Prod.fst] using hx
  · rw [if_neg h]
    simpa using Or.inl hx

theorem self_mem_keys_anchorNodeStep (acc : List (String × ScanNode)) (a : ScanAnchor) :
    anchorToNodeId a ∈ (anchorNodeStep acc a).map Prod.fst := by
  unfold anchorNodeStep
  by_cases h : (acc.any (fun p => p.1 == anchorToNodeId a)) = true
  · rw [if_pos h]
    obtain ⟨p, hp, hpe⟩ := List.any_eq_true.mp h
    have : p.1 ∈ acc.map Prod.fst := List.mem_map.mpr ⟨p, hp, rfl⟩
    have he : p.1 = anchorToNodeId a := by simpa using hpe
    rw [← he]
    simpa [List.map_map, Function.comp, apply_ite Prod.fst] using this
  · rw [if_neg h]
    simp

theorem mem_keys_anchorNodes_fold :
    ∀ (l : List ScanAnchor) (acc : List (String × ScanNode)) (x : String),
      x ∈ acc.map Prod.fst → x ∈ (l.foldl anchorNodeStep acc).map Prod.fst
  | [], acc, x, hx => hx
  | a :: as, acc, x, hx =>
    mem_keys_anchorNodes_fold as (anchorNodeStep acc a) x (mem_keys_anchorNodeStep acc a x hx)

theorem anchor_mem_keys_anchorNodes :
    ∀ (l : List ScanAnchor) (acc : List (String × ScanNode)) (a : ScanAnchor),
      a ∈ l → anchorToNodeId a ∈ (l.foldl anchorNodeStep acc).map Prod.fst := by
  intro l
  induction l with
  | nil => intro acc a h; cases h
  | cons b bs ih =>
    intro acc a h
    rcases List.mem_cons.mp h with h | h
    · subst h
      exact mem_keys_anchorNodes_fold bs (anchorNodeStep acc a) _
        (self_mem_keys_anchorNodeStep acc a)
    · exact ih (anchorNodeStep acc b) a h

theorem mem_keys_addNodeForId (e : ScanEdge) (ns : List (String × ScanNode)) (nid x : String)
    (hx : x ∈ ns.map Prod.fst) : x ∈ (addNodeForId e ns nid).map Prod.fst := by
  unfold addNodeForId
  by_cases h : (!(nid == "") && !(ns.any (fun p => p.1 == nid))) = true
  · rw [if_pos h]
    simpa using Or.inl hx
  · rw [if_neg h]
    exact hx

theorem self_mem_keys_addNodeForId (e : ScanEdge) (ns : List (String × ScanNode)) (nid : String)
    (hne : nid ≠ "") : nid ∈ (addNodeForId e ns nid).map Prod.fst := by
  unfold addNodeForId
  by_cases h : (ns.any (fun p => p.1 == nid)) = true
  · obtain ⟨p, hp, hpe⟩ := List.any_eq_true.mp h
    have hm : p.1 ∈ ns.map Prod.fst := List.mem_map.mpr ⟨p, hp, rfl⟩
    have he : p.1 = nid := by simpa using hpe
    have hx : nid ∈ ns.map Prod.fst := he ▸ hm
    exact mem_keys_addNodeForId e ns nid nid hx
  · have hcond : (!(nid == "") && !(ns.any (fun p => p.1 == nid))) = true := by
      simp [hne, h]
    rw [if_pos hcond]
    simp

theorem mem_keys_addLlmNodes_fold :
    ∀ (l : List ScanEdge) (ns : List (String × ScanNode)) (x : String),
      x ∈ ns.map Prod.fst → x ∈ (addLlmNodes ns l).map Prod.fst
  | [], ns, x, hx => hx
  | e :: es, ns, x, hx =>
    mem_keys_addLlmNodes_fold es _ x
      (mem_keys_addNodeForId e _ e.target x (mem_keys_addNodeForId e ns e.source x hx))

theorem edge_endpoints_mem_keys_addLlmNodes :
    ∀ (l : List ScanEdge) (ns : List (String × ScanNode)) (e : ScanEdge), e ∈ l →
      (e.source ≠ "" → e.source ∈ (addLlmNodes ns l).map Prod.fst) ∧
      (e.target ≠ "" → e.target ∈ (addLlmNodes ns l).map Prod.fst) := by
  intro l
  induction l with
  | nil => intro ns e h; cases h
  | cons b bs ih =>
    intro ns e h
    rcases List.mem_cons.mp h with h | h
    · subst h
      constructor
      · intro hs
        exact mem_keys_addLlmNodes_fold bs _ _
          (mem_keys_addNodeForId e _ e.target e.source
            (self_mem_keys_addNodeForId e ns e.source hs))
      · intro ht
        exact mem_keys_addLlmNodes_fold bs _ _
          (self_mem_keys_addNodeForId e (addNodeForId e ns e.source) e.target ht)
    · exact ih _ e h

/-- Kept edges of the assembler dedup loop are input edges. -/
theorem llmDedup_subset :
    ∀ (l : List ScanEdge), ∀ e ∈ (llmDedup l).1, e ∈ l := by
  have haux : ∀ (l : List ScanEdge) (st : List ScanEdge × List (String × String × String)),
      ∀ e ∈ (l.foldl
        (fun st e => if st.2.contains (scanKey3 e) then st
          else (st.1 ++ [e], st.2 ++ [scanKey3 e])) st).1,
        e ∈ st.1 ∨ e ∈ l := by
    intro l
    induction l with
    | nil => intro st e he; exact Or.inl he
    | cons b bs ih =>
      intro st e he
      simp only [List.foldl_cons] at he
      by_cases hb : (st.2.contains (scanKey3 b)) = true
      · rw [if_pos hb] at he
        rcases ih st e he with h | h
        · exact Or.inl h
        · exact Or.inr (List.mem_cons_of_mem _ h)
      · rw [if_neg hb] at he
        rcases ih _ e he with h | h
        · rcases List.mem_append.mp h with h | h
          · exact Or.inl h
          · exact Or.inr (List.mem_cons.mpr (Or.inl (List.mem_singleton.mp h)))
        · exact Or.inr (List.mem_cons_of_mem _ h)
  intro l e he
  rcases haux l ([], []) e he with h | h
  · cases h
  · exact h

/-- Node keys only grow across `_create_implicit_edges`. -/
theorem mem_keys_implicitStep
    (st : List (String × ScanNode) × List (String × String × String) × List ScanEdge)
    (a : ScanAnchor) (x : String) (hx : x ∈ st.1.map Prod.fst) :
    x ∈ (implicitStep st a).1.map Prod.fst := by
  unfold implicitStep
  by_cases h1 : (a.anchor_type == "env_var") = true
  · simp only [h1, if_true]
    by_cases h2 : (st.2.1.contains
        ("service:" ++ pathStem a.file, "env_var:" ++ metaGet a.metadata "var_name" a.name,
          "uses")) = true
    · rw [if_pos h2]
      exact hx
    · rw [if_neg h2]
      by_cases h3 : (st.1.any (fun p => p.1 == "service:" ++ pathStem a.file)) = true
      · simp only [h3, if_true]
        exact hx
      · simp only [h3]
        simpa using Or.inl hx
  · simp only [h1, Bool.false_eq_true, if_false]
    by_cases h2 : (a.anchor_type == "external_client") = true
    · simp only [h2, if_true]
      by_cases h3 : (st.2.1.contains
          ("service:" ++ pathStem a.file, anchorToNodeId a, "calls")) = true
      · rw [if_pos h3]; exact hx
      · rw [if_neg h3]; exact hx
    · simp only [h2, Bool.false_eq_true, if_false]
      by_cases h4 : (a.anchor_type == "cache_op") = true
      · simp only [h4, if_true]
        by_cases h5 : (st.2.1.contains
            ("service:" ++ pathStem a.file, anchorToNodeId a,
              if strContains a.name "get" then "reads" else "writes")) = true
        · rw [if_pos h5]; exact hx
        · rw [if_neg h5]; exact hx
      · simp only [h4, Bool.false_eq_true, if_false]
        exact hx

theorem mem_keys_implicit_fold :
    ∀ (l : List ScanAnchor)
      (st : List (String × ScanNode) × List (String × String × String) × List ScanEdge)
      (x : String), x ∈ st.1.map Prod.fst → x ∈ (l.foldl implicitStep st).1.map Prod.fst
  | [], _, _, hx => hx
  | a :: as, st, x, hx =>
    mem_keys_implicit_fold as (implicitStep st a) x (mem_keys_implicitStep st a x hx)

/-- One `_create_implicit_edges` step keeps every accumulated edge's target
(and, for `uses` edges, its source) inside the node key set, provided the
anchor's own node id is already present. -/
theorem implicitStep_closed
    (st : List (String × ScanNode) × List (String × String × String) × List ScanEdge)
    (a : ScanAnchor)
    (hid : anchorToNodeId a ∈ st.1.map Prod.fst)
    (hinv : ∀ e ∈ st.2.2, e.target ∈ st.1.map Prod.fst ∧
      (e.edge_type = "uses" → e.source ∈ st.1.map Prod.fst)) :
    ∀ e ∈ (implicitStep st a).2.2,
      e.target ∈ (implicitStep st a).1.map Prod.fst ∧
      (e.edge_type = "uses" → e.source ∈ (implicitStep st a).1.map Prod.fst) := by
  intro e he
  have hmono : ∀ x, x ∈ st.1.map Prod.fst → x ∈ (implicitStep st a).1.map Prod.fst :=
    fun x hx => mem_keys_implicitStep st a x hx
  unfold implicitStep at he ⊢
  by_cases h1 : (a.anchor_type == "env_var") = true
  · have ha : a.anchor_type = "env_var" := by simpa using h1
    have hidv : ("env_var:" ++ metaGet a.metadata "var_name" a.name) ∈ st.1.map Prod.fst := by
      have : anchorToNodeId a = "env_var:" ++ metaGet a.metadata "var_name" a.name := by
        simp [anchorToNodeId, ha]
      exact this ▸ hid
    simp only [h1, if_true] at he ⊢
    by_cases h2 : (st.2.1.contains
        ("service:" ++ pathStem a.file, "env_var:" ++ metaGet a.metadata "var_name" a.name,
          "uses")) = true
    · rw [if_pos h2] at he ⊢
      exact hinv e he
    · rw [if_neg h2] at he ⊢
      by_cases h3 : (st.1.any (fun p => p.1 == "service:" ++ pathStem a.file)) = true
      · simp only [h3, if_true] at he ⊢
        rcases List.mem_append.mp he with h | h
        · exact hinv e h
        · have he1 := List.mem_singleton.mp h
          subst he1
          refine ⟨hidv, fun _ => ?_⟩
          obtain ⟨p, hp, hpe⟩ := List.any_eq_true.mp h3
          have : p.1 ∈ st.1.map Prod.fst := List.mem_map.mpr ⟨p, hp, rfl⟩
          have heq : p.1 = "service:" ++ pathStem a.file := by simpa using hpe
          exact heq ▸ this
      · simp only [h3, Bool.false_eq_true, if_false] at he ⊢
        rcases List.mem_append.mp he with h | h
        · obtain ⟨h1t, h1s⟩ := hinv e h
          exact ⟨by simpa using Or.inl h1t, fun hu => by simpa using Or.inl (h1s hu)⟩
        · have he1 := List.mem_singleton.mp h
          subst he1
          refine ⟨by simpa using Or.inl hidv, fun _ => ?_⟩
          simp
  · simp only [h1, Bool.false_eq_true, if_false] at he ⊢
    by_cases h2 : (a.anchor_type == "external_client") = true
    · simp only [h2, if_true] at he ⊢
      by_cases h3 : (st.2.1.contains
          ("service:" ++ pathStem a.file, anchorToNodeId a, "calls")) = true
      · rw [if_pos h3] at he ⊢
        exact hinv e he
      · rw [if_neg h3] at he ⊢
        rcases List.mem_append.mp he with h | h
        · exact hinv e h
        · have he1 := List.mem_singleton.mp h
          subst he1
          exact ⟨hid, fun hu => by simp at hu⟩
    · simp only [h2, Bool.false_eq_true, if_false] at he ⊢
      by_cases h4 : (a.anchor_type == "cache_op") = true
      · simp only [h4, if_true] at he ⊢
        by_cases h5 : (st.2.1.contains
            ("service:" ++ pathStem a.file, anchorToNodeId a,
              if strContains a.name "get" then "reads" else "writes")) = true
        · rw [if_pos h5] at he ⊢
          exact hinv e he
        · rw [if_neg h5] at he ⊢
          rcases List.mem_append.mp he with h | h
          · exact hinv e h
          · have he1 := List.mem_singleton.mp h
            subst he1
            refine ⟨hid, fun hu => ?_⟩
            by_cases hg : (strContains a.name "get") = true
            · rw [if_pos hg] at hu
              simp at hu
            · rw [if_neg hg] at hu
              simp at hu
      · simp only [h4, Bool.false_eq_true, if_false] at he ⊢
        exact hinv e he

/-- The `_create_implicit_edges` fold keeps its edge set closed under the
node key set (targets always; sources for `uses` edges). -/
theorem implicit_fold_closed :
    ∀ (l : List ScanAnchor)
      (st : List (String × ScanNode) × List (String × String × String) × List ScanEdge),
      (∀ a ∈ l, anchorToNodeId a ∈ st.1.map Prod.fst) →
      (∀ e ∈ st.2.2, e.target ∈ st.1.map Prod.fst ∧
        (e.edge_type = "uses" → e.source ∈ st.1.map Prod.fst)) →
      ∀ e ∈ (l.foldl implicitStep st).2.2,
        e.target ∈ (l.foldl implicitStep st).1.map Prod.fst ∧
        (e.edge_type = "uses" → e.source ∈ (l.foldl implicitStep st).1.map Prod.fst) := by
  intro l
  induction l with
  | nil => intro st _ hinv e he; exact hinv e he
  | cons a as ih =>
    intro st hids hinv e he
    simp only [List.foldl_cons] at he ⊢
    refine ih (implicitStep st a) ?_ ?_ e he
    · intro a' ha'
      exact mem_keys_implicitStep st a _ (hids a' (List.mem_cons_of_mem _ ha'))
    · exact implicitStep_closed st a (hids a (List.mem_cons_self a as)) hinv

/-- C3 (amended): in the assembled graph, every edge's target id is in the
node set, and so is the source id of every classified (LLM) edge with
non-empty endpoints and of every `uses` edge (the env-var implicit edges);
only the sources of the `calls`/`reads`/`writes` implicit edges created
for external-client and cache-op anchors may be missing nodes — see the
counterexample. -/
theorem c3_amended (anchors : List ScanAnchor) (llm : List ScanEdge)
    (hne : ∀ e ∈ llm, e.source ≠ "" ∧ e.target ≠ "") :
    (∀ e ∈ (buildGraph anchors llm).edges,
      e.target ∈ nodeIds (buildGraph anchors llm)) ∧
    (∀ e ∈ (llmDedup llm).1, e.source ∈ nodeIds (buildGraph anchors llm)) ∧
    (∀ e ∈ (buildGraph anchors llm).edges, e.edge_type = "uses" →
      e.source ∈ nodeIds (buildGraph anchors llm)) := by
  have hfin :
      buildGraph anchors llm =
        { nodes := (anchors.foldl implicitStep
            (addLlmNodes (anchorNodes anchors) llm, (llmDedup llm).2, [])).1,
          edges := (llmDedup llm).1 ++
            (anchors.foldl implicitStep
              (addLlmNodes (anchorNodes anchors) llm, (llmDedup llm).2, [])).2.2 } := rfl
  have hllm : ∀ e ∈ (llmDedup llm).1,
      e.source ∈ nodeIds (buildGraph anchors llm) ∧
      e.target ∈ nodeIds (buildGraph anchors llm) := by
    intro e he
    have hel : e ∈ llm := llmDedup_subset llm e he
    obtain ⟨hs, ht⟩ := hne e hel
    obtain ⟨hs', ht'⟩ := edge_endpoints_mem_keys_addLlmNodes llm (anchorNodes anchors) e hel
    rw [hfin]
    exact ⟨mem_keys_implicit_fold anchors _ _ (hs' hs),
      mem_keys_implicit_fold anchors _ _ (ht' ht)⟩
  have himp : ∀ e ∈ (anchors.foldl implicitStep
      (addLlmNodes (anchorNodes anchors) llm, (llmDedup llm).2, [])).2.2,
      e.target ∈ nodeIds (buildGraph anchors llm) ∧
      (e.edge_type = "uses" → e.source ∈ nodeIds (buildGraph anchors llm)) := by
    have := implicit_fold_closed anchors
      (addLlmNodes (anchorNodes anchors) llm, (llmDedup llm).2, [])
      (fun a ha => mem_keys_addLlmNodes_fold llm (anchorNodes anchors) _
        (anchor_mem_keys_anchorNodes anchors [] a ha))
      (fun e he => absurd he (List.not_mem_nil e))
    intro e he
    rw [hfin]
    exact this e he
  refine ⟨?_, fun e he => (hllm e he).1, ?_⟩
  · intro e he
    rw [hfin] at he
    rcases List.mem_append.mp he with h | h
    · exact (hllm e h).2
    · exact (himp e h).1
  · intro e he hu
    rw [hfin] at he
    rcases List.mem_append.mp he with h | h
    · exact (hllm e h).1
    · exact (himp e h).2 hu

/-- C3 (counterexample): a single external-client anchor produces an
implicit `calls` edge whose source `service:pay` has no node in the
assembled graph — the claimed invariant fails. -/
theorem c3_counterexample :
    ∃ e ∈ (buildGraph [exExtClientAnchor] []).edges,
      e.source ∉ nodeIds (buildGraph [exExtClientAnchor] []) := by
  decide

/-- C3 witness: the amended closure at a concrete anchor/edge input. -/
theorem c3_witness :
    (∀ e ∈ (buildGraph [exEnvAnchor] [exScanEdgeF1]).edges,
      e.target ∈ nodeIds (buildGraph [exEnvAnchor] [exScanEdgeF1])) ∧
    (∀ e ∈ (llmDedup [exScanEdgeF1]).1,
      e.source ∈ nodeIds (buildGraph [exEnvAnchor] [exScanEdgeF1])) ∧
    (∀ e ∈ (buildGraph [exEnvAnchor] [exScanEdgeF1]).edges, e.edge_type = "uses" →
      e.source ∈ nodeIds (buildGraph [exEnvAnchor] [exScanEdgeF1])) :=
  c3_amended [exEnvAnchor] [exScanEdgeF1] (by decide)

/-! ## C5 — per-file idempotence of sync

The facts below characterise one `syncFileStep` so that a second run with
identical extraction output can be analysed: the file's fresh edges end up
as `dedup4` of the new edge list, and its fresh nodes as the per-id last
occurrences of the new node list. -/

theorem hasKey4_false_of_file (rel : String) (acc : List SEdge) (e : SEdge)
    (hacc : ∀ x ∈ acc, ¬ x.file = rel) (he : e.file = rel) : hasKey4 acc e = false := by
  refine List.any_eq_false.mpr ?_
  intro x hx hbe
  have hk : edgeKey4 x = edgeKey4 e := by simpa using hbe
  have hfile : x.file = e.file := congrArg (fun q => q.2.2.2) hk
  exact hacc x hx (hfile.trans he)

theorem hasKey4_append (l1 l2 : List SEdge) (e : SEdge) :
    hasKey4 (l1 ++ l2) e = (hasKey4 l1 e || hasKey4 l2 e) := by
  simp [hasKey4, List.any_append]

/-- The sync edge merge splits cleanly: edges of other files are untouched
and the file's new edges are appended first-occurrence-deduplicated. -/
theorem mergeEdges_split (rel : String) :
    ∀ (ne acc kept : List SEdge),
      (∀ x ∈ acc, ¬ x.file = rel) → (∀ x ∈ kept, x.file = rel) → (∀ x ∈ ne, x.file = rel) →
      mergeEdges (acc ++ kept) ne = acc ++ dedup4Aux kept ne := by
  intro ne
  induction ne with
  | nil => intro acc kept _ _ _; rfl
  | cons e rest ih =>
    intro acc kept hacc hkept hne
    have herel : e.file = rel := hne e (List.mem_cons_self e rest)
    have hrest : ∀ x ∈ rest, x.file = rel := fun x hx => hne x (List.mem_cons_of_mem _ hx)
    have hsplit : hasKey4 (acc ++ kept) e = hasKey4 kept e := by
      rw [hasKey4_append, hasKey4_false_of_file rel acc e hacc herel, Bool.false_or]
    rw [mergeEdges, dedup4Aux, hsplit]
    by_cases hk : hasKey4 kept e = true
    · rw [if_pos hk, if_pos hk]
      exact ih acc kept hacc hkept hrest
    · rw [if_neg hk, if_neg hk, List.append_assoc]
      exact ih acc (kept ++ [e]) hacc
        (fun x hx => by
          rcases List.mem_append.mp hx with h | h
          · exact hkept x h
          · exact (List.mem_singleton.mp h) ▸ herel)
        hrest

theorem mergeEdges_eq_append_dedup4 (rel : String) (acc ne : List SEdge)
    (hacc : ∀ x ∈ acc, ¬ x.file = rel) (hne : ∀ x ∈ ne, x.file = rel) :
    mergeEdges acc ne = acc ++ dedup4 ne := by
  have := mergeEdges_split rel ne acc [] hacc (fun x hx => absurd hx (List.not_mem_nil x)) hne
  simpa [dedup4] using this

theorem mem_dedup4Aux :
    ∀ (l kept : List SEdge) (e : SEdge), e ∈ dedup4Aux kept l → e ∈ kept ∨ e ∈ l := by
  intro l
  induction l with
  | nil => intro kept e he; exact Or.inl he
  | cons x xs ih =>
    intro kept e he
    rw [dedup4Aux] at he
    by_cases hx : hasKey4 kept x = true
    · rw [if_pos hx] at he
      rcases ih kept e he with h | h
      · exact Or.inl h
      · exact Or.inr (List.mem_cons_of_mem _ h)
    · rw [if_neg hx] at he
      rcases ih (kept ++ [x]) e he with h | h
      · rcases List.mem_append.mp h with h | h
        · exact Or.inl h
        · exact Or.inr (List.mem_cons.mpr (Or.inl (List.mem_singleton.mp h)))
      · exact Or.inr (List.mem_cons_of_mem _ h)

theorem dedup4_subset (es : List SEdge) (e : SEdge) (he : e ∈ dedup4 es) : e ∈ es := by
  rcases mem_dedup4Aux es [] e he with h | h
  · cases h
  · exact h

theorem dedup4Aux_kept_mem :
    ∀ (l kept : List SEdge) (e : SEdge), e ∈ kept → e ∈ dedup4Aux kept l := by
  intro l
  induction l with
  | nil => intro kept e he; exact he
  | cons x xs ih =>
    intro kept e he
    rw [dedup4Aux]
    by_cases hx : hasKey4 kept x = true
    · rw [if_pos hx]; exact ih kept e he
    · rw [if_neg hx]; exact ih (kept ++ [x]) e (List.mem_append_left _ he)

/-- Every input edge has a key-equal representative among the kept edges. -/
theorem dedup4_covers :
    ∀ (l kept : List SEdge) (e : SEdge), e ∈ l →
      ∃ e' ∈ dedup4Aux kept l, edgeKey4 e' = edgeKey4 e := by
  intro l
  induction l with
  | nil => intro kept e he; cases he
  | cons x xs ih =>
    intro kept e he
    rw [dedup4Aux]
    rcases List.mem_cons.mp he with h | h
    · subst h
      by_cases hx : hasKey4 kept e = true
      · rw [if_pos hx]
        obtain ⟨w, hw, hwk⟩ := List.any_eq_true.mp hx
        exact ⟨w, dedup4Aux_kept_mem xs kept w hw, by simpa using hwk⟩
      · rw [if_neg hx]
        exact ⟨e, dedup4Aux_kept_mem xs (kept ++ [e]) e (List.mem_append_right _
          (List.mem_singleton.mpr rfl)), rfl⟩
    · by_cases hx : hasKey4 kept x = true
      · rw [if_pos hx]; exact ih kept e h
      · rw [if_neg hx]; exact ih (kept ++ [x]) e h

/-! ### Per-id view of the node merge -/

theorem idFilter_replaceFirst_ne (acc : List SNode) (n : SNode) (k : String)
    (h : ¬ n.id = k) : idFilter (replaceFirstNode acc n) k = idFilter acc k := by
  induction acc with
  | nil => rfl
  | cons x xs ih =>
    rw [replaceFirstNode]
    by_cases hx : (x.id == n.id) = true
    · rw [if_pos hx]
      have hxk : ¬ (x.id == k) = true := by
        have : x.id = n.id := by simpa using hx
        simp [this, h]
      simp [idFilter, List.filter_cons, hxk, h]
    · rw [if_neg hx]
      simp only [idFilter, List.filter_cons] at ih ⊢
      rw [ih]

theorem idFilter_replaceFirst_eq (acc : List SNode) (n : SNode) (k : String)
    (h : n.id = k) :
    idFilter (replaceFirstNode acc n) k =
      match idFilter acc k with
      | [] => []
      | _ :: xs => n :: xs := by
  induction acc with
  | nil => rfl
  | cons x xs ih =>
    rw [replaceFirstNode]
    by_cases hx : (x.id == n.id) = true
    · rw [if_pos hx]
      have hxk : (x.id == k) = true := by
        have : x.id = n.id := by simpa using hx
        simp [this, h]
      simp [idFilter, List.filter_cons, hxk, h]
    · rw [if_neg hx]
      have hxk : ¬ (x.id == k) = true := by
        intro hc
        exact hx (by simp [show x.id = k from by simpa using hc, h])
      simp only [idFilter, List.filter_cons, hxk] at ih ⊢
      simp only [Bool.false_eq_true, if_false] at ih ⊢
      exact ih

theorem any_id_iff_idFilter (acc : List SNode) (k : String) :
    (acc.any (fun x => x.id == k)) = true ↔ idFilter acc k ≠ [] := by
  rw [List.any_eq_true]
  constructor
  · rintro ⟨x, hx, hk⟩ hnil
    exact (List.eq_nil_iff_forall_not_mem.mp hnil x) (List.mem_filter.mpr ⟨hx, hk⟩)
  · intro h
    rcases List.exists_mem_of_ne_nil _ h with ⟨x, hx⟩
    obtain ⟨hm, hk⟩ := List.mem_filter.mp hx
    exact ⟨x, hm, hk⟩

/-- The node merge decouples per id into the `perId` trace. -/
theorem mergeNodes_idFilter :
    ∀ (nn acc : List SNode) (k : String),
      idFilter (mergeNodes acc nn) k = perId (idFilter acc k) (idFilter nn k) := by
  intro nn
  induction nn with
  | nil => intro acc k; rfl
  | cons n rest ih =>
    intro acc k
    rw [mergeNodes]
    by_cases hany : (acc.any (fun x => x.id == n.id)) = true
    · rw [if_pos hany]
      rw [ih]
      by_cases hk : n.id = k
      · have hne : idFilter acc k ≠ [] := by
          rw [← hk]
          exact (any_id_iff_idFilter acc n.id).mp hany
        rw [idFilter_replaceFirst_eq acc n k hk]
        have hfk : idFilter (n :: rest) k = n :: idFilter rest k := by
          simp [idFilter, List.filter_cons, hk]
        rw [hfk]
        rcases hcur : idFilter acc k with _ | ⟨c, cs⟩
        · exact absurd hcur hne
        · rfl
      · rw [idFilter_replaceFirst_ne acc n k hk]
        have hfk : idFilter (n :: rest) k = idFilter rest k := by
          simp [idFilter, List.filter_cons, hk]
        rw [hfk]
    · rw [if_neg hany]
      rw [ih]
      by_cases hk : n.id = k
      · have hnil : idFilter acc k = [] := by
          rw [← hk]
          by_contra hne
          exact hany ((any_id_iff_idFilter acc n.id).mpr hne)
        have hap : idFilter (acc ++ [n]) k = [n] := by
          simp [idFilter, List.filter_append] at hnil ⊢
          simp [hnil, List.filter_cons, hk]
          exact hnil
        rw [hap, hnil]
        have hfk : idFilter (n :: rest) k = n :: idFilter rest k := by
          simp [idFilter, List.filter_cons, hk]
        rw [hfk]
        rfl
      · have hap : idFilter (acc ++ [n]) k = idFilter acc k := by
          simp [idFilter, List.filter_append, List.filter_cons, hk]
        have hfk : idFilter (n :: rest) k = idFilter rest k := by
          simp [idFilter, List.filter_cons, hk]
        rw [hap, hfk]

/-- Filtering the per-id trace for the synced file's nodes keeps exactly
the last new node with that id. -/
theorem perId_filter_rel (rel : String) :
    ∀ (nk cur : List SNode), (∀ x ∈ cur.tail, ¬ x.file = rel) → (∀ x ∈ nk, x.file = rel) →
      (perId cur nk).filter (fun n => n.file == rel) =
        match nk.getLast? with
        | some v => [v]
        | none => cur.filter (fun n => n.file == rel) := by
  intro nk
  induction nk with
  | nil => intro cur _ _; rfl
  | cons n1 rest ih =>
    intro cur hcur hnk
    have hn1 : n1.file = rel := hnk n1 (List.mem_cons_self n1 rest)
    have hrest : ∀ x ∈ rest, x.file = rel := fun x hx => hnk x (List.mem_cons_of_mem _ hx)
    cases cur with
    | nil =>
      have hred : perId ([] : List SNode) (n1 :: rest) = perId [n1] rest := rfl
      rw [hred]
      cases rest with
      | nil =>
        simp [perId, List.filter_cons, hn1]
      | cons r rs =>
        rw [ih [n1] (by simp) hrest]
        rcases hlast : (r :: rs).getLast? with _ | v
        · exact absurd hlast (by simp)
        · rw [List.getLast?_cons_cons, hlast]
    | cons c cs =>
      have hred : perId (c :: cs) (n1 :: rest) = perId (n1 :: cs) rest := rfl
      rw [hred]
      have hcs : ∀ x ∈ (n1 :: cs).tail, ¬ x.file = rel := by
        simpa using hcur
      cases rest with
      | nil =>
        have : perId (n1 :: cs) ([] : List SNode) = n1 :: cs := rfl
        rw [this]
        have hfilcs : cs.filter (fun n => n.file == rel) = [] := by
          rw [List.filter_eq_nil]
          intro a ha
          simpa using hcur a (by simpa using ha)
        simp [List.filter_cons, hn1, hfilcs]
      | cons r rs =>
        rw [ih (n1 :: cs) hcs hrest]
        rcases hlast : (r :: rs).getLast? with _ | v
        · exact absurd hlast (by simp)
        · rw [List.getLast?_cons_cons, hlast]

theorem mem_of_getLast_eq {α : Type} :
    ∀ (l : List α) (a : α), l.getLast? = some a → a ∈ l
  | [], a, h => by cases h
  | [x], a, h => by
    simp only [List.getLast?_singleton, Option.some_inj] at h
    exact h ▸ List.mem_singleton.mpr rfl
  | x :: y :: ys, a, h => by
    rw [List.getLast?_cons_cons] at h
    exact List.mem_cons_of_mem _ (mem_of_getLast_eq (y :: ys) a h)

theorem getLast_isSome_of_ne_nil {α : Type} :
    ∀ (l : List α), l ≠ [] → ∃ a, l.getLast? = some a
  | [], h => absurd rfl h
  | [x], _ => ⟨x, rfl⟩
  | x :: y :: ys, _ => by
    rw [List.getLast?_cons_cons]
    exact getLast_isSome_of_ne_nil (y :: ys) (by simp)

/-- The file-local nodes of a merged graph, per id: exactly the last new
node with that id. -/
theorem merged_file_idFilter (rel : String) (acc nn : List SNode)
    (hacc : ∀ x ∈ acc, ¬ x.file = rel) (hnn : ∀ x ∈ nn, x.file = rel) (k : String) :
    idFilter ((mergeNodes acc nn).filter (fun n => n.file == rel)) k =
      (lastWith nn k).toList := by
  have hcomm : idFilter ((mergeNodes acc nn).filter (fun n => n.file == rel)) k
      = (idFilter (mergeNodes acc nn) k).filter (fun n => n.file == rel) := by
    rw [idFilter, idFilter, List.filter_filter, List.filter_filter]
    exact List.filter_congr (fun a _ => by rw [Bool.and_comm])
  rw [hcomm, mergeNodes_idFilter]
  have htail : ∀ x ∈ (idFilter acc k).tail, ¬ x.file = rel := by
    intro x hx
    exact hacc x (List.mem_of_mem_filter (List.mem_of_mem_tail hx))
  have hnk : ∀ x ∈ idFilter nn k, x.file = rel :=
    fun x hx => hnn x (List.mem_of_mem_filter hx)
  rw [perId_filter_rel rel (idFilter nn k) (idFilter acc k) htail hnk]
  rcases hl : (idFilter nn k).getLast? with _ | v
  · simp only [lastWith, hl, Option.toList_none]
    rw [List.filter_eq_nil]
    intro a ha
    simpa using hacc a (List.mem_of_mem_filter ha)
  · simp [lastWith, hl]

theorem oldN_last (rel : String) (acc nn : List SNode)
    (hacc : ∀ x ∈ acc, ¬ x.file = rel) (hnn : ∀ x ∈ nn, x.file = rel) :
    ∀ o ∈ (mergeNodes acc nn).filter (fun n => n.file == rel),
      o ∈ nn ∧ lastWith nn o.id = some o := by
  intro o ho
  have h1 : o ∈ idFilter ((mergeNodes acc nn).filter (fun n => n.file == rel)) o.id :=
    List.mem_filter.mpr ⟨ho, by simp⟩
  rw [merged_file_idFilter rel acc nn hacc hnn o.id] at h1
  rcases hl : lastWith nn o.id with _ | v
  · rw [hl] at h1
    cases h1
  · rw [hl] at h1
    have hov : o = v := by simpa using h1
    subst hov
    exact ⟨List.mem_of_mem_filter (mem_of_getLast_eq _ _ hl), rfl⟩

theorem nn_id_covered (rel : String) (acc nn : List SNode)
    (hacc : ∀ x ∈ acc, ¬ x.file = rel) (hnn : ∀ x ∈ nn, x.file = rel) :
    ∀ n ∈ nn, ∃ o ∈ (mergeNodes acc nn).filter (fun n => n.file == rel), o.id = n.id := by
  intro n hn
  have hne : idFilter nn n.id ≠ [] := by
    intro hnil
    exact (List.eq_nil_iff_forall_not_mem.mp hnil n)
      (List.mem_filter.mpr ⟨hn, by simp⟩)
  obtain ⟨v, hv⟩ := getLast_isSome_of_ne_nil _ hne
  have hvid : v.id = n.id := by
    have := List.mem_filter.mp (mem_of_getLast_eq _ _ hv)
    simpa using this.2
  have hvin : v ∈ idFilter ((mergeNodes acc nn).filter (fun n => n.file == rel)) n.id := by
    rw [merged_file_idFilter rel acc nn hacc hnn n.id]
    simp [lastWith, hv]
  exact ⟨v, List.mem_of_mem_filter hvin, hvid⟩

/-! ### Per-key view of the node maps built by `_detect_drift` -/

theorem find?_eq_head_filter {α : Type} (p : α → Bool) :
    ∀ (l : List α), l.find? p = (l.filter p).head?
  | [] => rfl
  | x :: xs => by
    by_cases hx : p x = true
    · rw [List.find?_cons_of_pos _ hx, List.filter_cons_of_pos hx]
      rfl
    · rw [List.find?_cons_of_neg _ (by simpa using hx),
        List.filter_cons_of_neg (by simpa using hx)]
      exact find?_eq_head_filter p xs

theorem lastWith_cons (n : SNode) (rest : List SNode) (k : String) :
    lastWith (n :: rest) k =
      match lastWith rest k with
      | some w => some w
      | none => if n.id = k then some n else none := by
  by_cases hk : (n.id == k) = true
  · have hfk : idFilter (n :: rest) k = n :: idFilter rest k := by
      simp [idFilter, List.filter_cons, hk]
    rcases hl : idFilter rest k with _ | ⟨x, xs⟩
    · have : lastWith rest k = none := by simp [lastWith, hl]
      simp [lastWith, hfk, hl, this, show n.id = k from by simpa using hk]
    · obtain ⟨v, hv⟩ := getLast_isSome_of_ne_nil (x :: xs) (by simp)
      have h1 : lastWith (n :: rest) k = some v := by
        rw [lastWith, hfk, hl, List.getLast?_cons_cons, hv]
      have h2 : lastWith rest k = some v := by rw [lastWith, hl, hv]
      rw [h1, h2]
  · have hfk : idFilter (n :: rest) k = idFilter rest k := by
      simp [idFilter, List.filter_cons, hk]
    have h1 : lastWith (n :: rest) k = lastWith rest k := by rw [lastWith, hfk]; rfl
    rw [h1]
    rcases lastWith rest k with _ | v
    · simp [show ¬ n.id = k from by simpa using hk]
    · rfl

/-- Key filter of `{n["id"]: n for n in ns}`: at most one entry per key,
holding the last node with that id. -/
theorem buildNodeMap_filter_key :
    ∀ (ns : List SNode) (k : String),
      (buildNodeMap ns).filter (fun p => p.1 == k) =
        match lastWith ns k with
        | some v => [(k, v)]
        | none => [] := by
  have haux : ∀ (l : List SNode) (acc : List (String × SNode)) (k : String),
      (acc.filter (fun p => p.1 == k) = [] ∨
        ∃ v, acc.filter (fun p => p.1 == k) = [(k, v)]) →
      ((l.foldl (fun acc n =>
          if acc.any (fun p => p.1 == n.id) then
            acc.map (fun p => if p.1 == n.id then (p.1, n) else p)
          else acc ++ [(n.id, n)]) acc).filter (fun p => p.1 == k)) =
        match lastWith l k with
        | some v => [(k, v)]
        | none => acc.filter (fun p => p.1 == k) := by
    intro l
    induction l with
    | nil => intro acc k _; rfl
    | cons n rest ih =>
      intro acc k hinv
      simp only [List.foldl_cons]
      by_cases hk : n.id = k
      · subst hk
        have hstep : ((if acc.any (fun p => p.1 == n.id) then
            acc.map (fun p => if p.1 == n.id then (p.1, n) else p)
          else acc ++ [(n.id, n)]).filter (fun p => p.1 == n.id)) = [(n.id, n)] := by
          by_cases hany : (acc.any (fun p => p.1 == n.id)) = true
          · rw [if_pos hany]
            obtain ⟨q, hq, hqk⟩ := List.any_eq_true.mp hany
            have hqne : acc.filter (fun p => p.1 == n.id) ≠ [] := by
              intro hnil
              have hqf : q ∈ acc.filter (fun p => p.1 == n.id) :=
                List.mem_filter.mpr ⟨hq, hqk⟩
              rw [hnil] at hqf
              cases hqf
            rcases hinv with hinv | ⟨v, hv⟩
            · exact absurd hinv hqne
            · rw [List.filter_map]
              have hpt : acc.filter
                  (fun q => ((fun p => if p.1 == n.id then (p.1, n) else p) q).1 == n.id) =
                  acc.filter (fun p => p.1 == n.id) := by
                refine List.filter_congr ?_
                intro q _
                by_cases hq1 : (q.1 == n.id) = true
                · simp [hq1]
                · simp [hq1]
              rw [show (fun q => (if q.1 == n.id then (q.1, n) else q).1 == n.id) =
                  (fun q => ((fun p => if p.1 == n.id then (p.1, n) else p) q).1 == n.id)
                  from rfl] at hpt
              rw [Function.comp_def, hpt, hv]
              simp
          · rw [if_neg hany]
            have hfnil : acc.filter (fun p => p.1 == n.id) = [] := by
              rw [List.filter_eq_nil]
              intro q hq hc
              exact hany (List.any_eq_true.mpr ⟨q, hq, hc⟩)
            rw [List.filter_append, hfnil, List.filter_cons_of_pos (by simp)]
            rfl
        rw [ih _ n.id (Or.inr ⟨n, hstep⟩), lastWith_cons]
        rcases hl : lastWith rest n.id with _ | w
        · rw [if_pos rfl]
          exact hstep
        · rfl
      · have hstep : ((if acc.any (fun p => p.1 == n.id) then
            acc.map (fun p => if p.1 == n.id then (p.1, n) else p)
          else acc ++ [(n.id, n)]).filter (fun p => p.1 == k)) =
            acc.filter (fun p => p.1 == k) := by
          by_cases hany : (acc.any (fun p => p.1 == n.id)) = true
          · rw [if_pos hany, List.filter_map]
            have hpt : acc.filter
                (fun q => ((fun p => if p.1 == n.id then (p.1, n) else p) q).1 == k) =
                acc.filter (fun p => p.1 == k) := by
              refine List.filter_congr ?_
              intro q _
              by_cases hq1 : (q.1 == n.id) = true
              · have : q.1 = n.id := by simpa using hq1
                simp [hq1, this]
              · simp [hq1]
            rw [Function.comp_def, hpt]
            refine List.map_congr_left ?_ |>.trans (List.map_id _)
            intro q hq
            have : (q.1 == n.id) = false := by
              have hqk : q.1 = k := by simpa using (List.mem_filter.mp hq).2
              simp [hqk, hk]
              intro hc
              exact absurd hc.symm hk
            simp [this]
          · rw [if_neg hany, List.filter_append,
              List.filter_cons_of_neg (by simpa using fun hc => hk (by simpa using hc))]
            simp
        rw [ih _ k (hstep ▸ hinv), lastWith_cons]
        rcases hl : lastWith rest k with _ | w
        · rw [if_neg hk]
          exact hstep
        · rfl
  intro ns k
  have := haux ns [] k (Or.inl rfl)
  rw [buildNodeMap] at *
  rcases hl : lastWith ns k with _ | v
  · rw [hl] at this
    exact this
  · rw [hl] at this
    exact this

theorem nLookup_buildNodeMap (ns : List SNode) (k : String) :
    nLookup (buildNodeMap ns) k = lastWith ns k := by
  rw [nLookup, find?_eq_head_filter, buildNodeMap_filter_key]
  rcases lastWith ns k with _ | v
  · rfl
  · rfl

theorem mem_buildNodeMap (ns : List SNode) (k : String) (v : SNode)
    (h : (k, v) ∈ buildNodeMap ns) : lastWith ns k = some v := by
  have hf : (k, v) ∈ (buildNodeMap ns).filter (fun p => p.1 == k) :=
    List.mem_filter.mpr ⟨h, by simp⟩
  rw [buildNodeMap_filter_key] at hf
  rcases hl : lastWith ns k with _ | w
  · rw [hl] at hf
    cases hf
  · rw [hl] at hf
    have hvw : v = w := ((Prod.mk.injEq _ _ _ _).mp (List.mem_singleton.mp hf)).2
    rw [hvw]

theorem mem_dedupPairs (l : List (String × String)) (x : String × String)
    (hx : x ∈ dedupPairs l) : x ∈ l := by
  have haux : ∀ (l acc : List (String × String)),
      x ∈ l.foldl (fun acc p => if acc.contains p then acc else acc ++ [p]) acc →
        x ∈ acc ∨ x ∈ l := by
    intro l
    induction l with
    | nil => intro acc h; exact Or.inl h
    | cons y ys ih =>
      intro acc h
      simp only [List.foldl_cons] at h
      by_cases hy : (acc.contains y) = true
      · rw [if_pos hy] at h
        rcases ih acc h with h | h
        · exact Or.inl h
        · exact Or.inr (List.mem_cons_of_mem _ h)
      · rw [if_neg hy] at h
        rcases ih (acc ++ [y]) h with h | h
        · rcases List.mem_append.mp h with h | h
          · exact Or.inl h
          · exact Or.inr (List.mem_cons.mpr (Or.inl (List.mem_singleton.mp h)))
        · exact Or.inr (List.mem_cons_of_mem _ h)
  rcases haux l [] hx with h | h
  · cases h
  · exact h

theorem edgeKey3_of_key4 {a b : SEdge} (h : edgeKey4 a = edgeKey4 b) :
    edgeKey3 a = edgeKey3 b :=
  congrArg (fun q => (q.1, q.2.1, q.2.2.1)) h

theorem pair_of_key4 {a b : SEdge} (h : edgeKey4 a = edgeKey4 b) :
    (a.etype, a.target) = (b.etype, b.target) :=
  congrArg (fun q => (q.2.2.1, q.2.1)) h

/-- On a re-run whose old snapshot already equals the deduplicated new
data, `_detect_drift` reduces to the cycle warnings alone: the five FLAG
rules are all silent. -/
theorem detectDrift_second_run (G2 : SyncGraph) (rel : String)
    (oldN2 nn : List SNode) (oldE2 ne : List SEdge)
    (hE : oldE2 = dedup4 ne)
    (hN : ∀ k, lastWith oldN2 k = lastWith nn k)
    (hsub : ∀ e ∈ dedup4 ne, e ∈ G2.edges) :
    detectDrift G2 rel oldN2 oldE2 nn ne =
      (detectCircularDependencies G2 rel).map (fun cyc =>
        Drift.mk "circular_dependency" "BLOCK"
          ("Circular dependency detected: " ++ String.intercalate " -> " cyc)) := by
  have hadded : (dedupPairs (ne.map (fun e => (e.etype, e.target)))).filter
      (fun p => !((oldE2.map (fun e => (e.etype, e.target))).contains p)) = [] := by
    rw [List.filter_eq_nil]
    intro p hp
    obtain ⟨e, he, hpe⟩ := List.mem_map.mp (mem_dedupPairs _ p hp)
    obtain ⟨e', he', hk⟩ := dedup4_covers ne [] e he
    have hmem : p ∈ oldE2.map (fun e => (e.etype, e.target)) := by
      rw [hE]
      exact List.mem_map.mpr ⟨e', he', (pair_of_key4 hk).trans hpe⟩
    simp [hmem]
  have hw4 : (buildNodeMap nn).filterMap (fun q =>
      match nLookup (buildNodeMap oldN2) q.1 with
      | some oldN =>
        if !(oldN.ring == q.2.ring) then
          some (Drift.mk "ring_changed" "FLAG"
            (q.1 ++ " ring changed from " ++ toString oldN.ring ++ " to " ++ toString q.2.ring))
        else none
      | none => none) = [] := by
    rw [List.filterMap_eq_nil]
    intro q hq
    have hlook : nLookup (buildNodeMap oldN2) q.1 = some q.2 := by
      rw [nLookup_buildNodeMap, hN q.1]
      exact mem_buildNodeMap nn q.1 q.2 hq
    rw [hlook]
    simp
  have hw5 : (buildNodeMap nn).filterMap (fun q =>
      let incoming := G2.edges.filter (fun e => e.target == q.1)
      if incoming.isEmpty && ((buildNodeMap oldN2).any (fun p => p.1 == q.1)) then
        let oldIncoming := oldE2.filter (fun e => e.target == q.1)
        if !oldIncoming.isEmpty then
          some (Drift.mk "orphaned_code" "FLAG"
            (q.1 ++ " now has 0 callers (previously " ++ toString oldIncoming.length ++ ")"))
        else none
      else none) = [] := by
    rw [List.filterMap_eq_nil]
    intro q hq
    by_cases hinc : ((G2.edges.filter (fun e => e.target == q.1)).isEmpty) = true
    · have hold : oldE2.filter (fun e => e.target == q.1) = [] := by
        rw [hE, List.filter_eq_nil]
        intro e he ht
        have : e ∈ G2.edges.filter (fun e => e.target == q.1) :=
          List.mem_filter.mpr ⟨hsub e he, ht⟩
        rw [List.isEmpty_iff.mp hinc] at this
        cases this
      simp only [hinc, Bool.true_and, hold]
      by_cases hany : ((buildNodeMap oldN2).any (fun p => p.1 == q.1)) = true
      · simp [hany]
      · simp [hany]
    · simp only [Bool.of_not_eq_true hinc, Bool.false_and, Bool.false_eq_true, if_false]
  rw [detectDrift]
  rw [hadded, hw4, hw5]
  simp

theorem removed_nodes_file (g : SyncGraph) (rel : String) :
    ∀ x ∈ ((removeFileFromGraph g rel).1).nodes, ¬ x.file = rel := by
  intro x hx
  have := (List.mem_filter.mp hx).2
  simpa using this

theorem removed_edges_file (g : SyncGraph) (rel : String) :
    ∀ x ∈ ((removeFileFromGraph g rel).1).edges, ¬ x.file = rel := by
  intro x hx
  have := (List.mem_filter.mp hx).2
  simp only [Bool.and_eq_true, Bool.not_eq_true'] at this
  simpa using this.1.1

/-- The edges the merged graph records for the synced file are exactly the
deduplicated new edges. -/
theorem edgesForFile_merged (g : SyncGraph) (rel : String)
    (nn : List SNode) (ne : List SEdge) (hne : ∀ e ∈ ne, e.file = rel) :
    edgesForFile (mergeIntoGraph (removeFileFromGraph g rel).1 nn ne) rel = dedup4 ne := by
  have hbase := removed_edges_file g rel
  have hmerge : (mergeIntoGraph (removeFileFromGraph g rel).1 nn ne).edges =
      ((removeFileFromGraph g rel).1).edges ++ dedup4 ne :=
    mergeEdges_eq_append_dedup4 rel _ ne hbase hne
  rw [edgesForFile, hmerge, List.filter_append]
  have h1 : ((removeFileFromGraph g rel).1).edges.filter (fun e => e.file == rel) = [] := by
    rw [List.filter_eq_nil]
    intro e he
    simpa using hbase e he
  have h2 : (dedup4 ne).filter (fun e => e.file == rel) = dedup4 ne := by
    rw [List.filter_eq_self]
    intro e he
    simpa using hne e (dedup4_subset ne e he)
  rw [h1, h2, List.nil_append]

/-- C5 (amended): re-running sync on a file whose extraction and
classification results are unchanged yields zero added/removed nodes and
edges, and the only drift warnings it can emit are the `BLOCK`
circular-dependency ones — which re-fire on *every* run while a cycle
reachable from the file exists, so the claimed "zero drift warnings" only
holds when the imports/calls subgraph has no cycle reachable from the
file's nodes. -/
theorem c5_amended (g0 : SyncGraph) (rel : String) (nn : List SNode) (ne : List SEdge)
    (hnn : ∀ n ∈ nn, n.file = rel) (hne : ∀ e ∈ ne, e.file = rel) :
    (syncFileStep (syncFileStep g0 rel nn ne).graph rel nn ne).nodesAdded = [] ∧
    (syncFileStep (syncFileStep g0 rel nn ne).graph rel nn ne).nodesRemoved = [] ∧
    (syncFileStep (syncFileStep g0 rel nn ne).graph rel nn ne).edgesAdded = [] ∧
    (syncFileStep (syncFileStep g0 rel nn ne).graph rel nn ne).edgesRemoved = [] ∧
    (syncFileStep (syncFileStep g0 rel nn ne).graph rel nn ne).drift =
      (detectCircularDependencies
        (syncFileStep (syncFileStep g0 rel nn ne).graph rel nn ne).graph rel).map (fun cyc =>
          Drift.mk "circular_dependency" "BLOCK"
            ("Circular dependency detected: " ++ String.intercalate " -> " cyc)) := by
  have hG1 : (syncFileStep g0 rel nn ne).graph =
      mergeIntoGraph (removeFileFromGraph g0 rel).1 nn ne := rfl
  have hbase1N := removed_nodes_file g0 rel
  have holdN : nodesForFile (syncFileStep g0 rel nn ne).graph rel =
      (mergeNodes ((removeFileFromGraph g0 rel).1).nodes nn).filter
        (fun n => n.file == rel) := rfl
  have holdE : edgesForFile (syncFileStep g0 rel nn ne).graph rel = dedup4 ne := by
    rw [hG1]
    exact edgesForFile_merged g0 rel nn ne hne
  have hN1 : ∀ o ∈ nodesForFile (syncFileStep g0 rel nn ne).graph rel,
      o ∈ nn ∧ lastWith nn o.id = some o := by
    rw [holdN]
    exact oldN_last rel _ nn hbase1N hnn
  have hN2 : ∀ n ∈ nn, ∃ o ∈ nodesForFile (syncFileStep g0 rel nn ne).graph rel,
      o.id = n.id := by
    rw [holdN]
    exact nn_id_covered rel _ nn hbase1N hnn
  have hNlast : ∀ k, lastWith (nodesForFile (syncFileStep g0 rel nn ne).graph rel) k =
      lastWith nn k := by
    intro k
    rw [holdN, lastWith, merged_file_idFilter rel _ nn hbase1N hnn k]
    rcases lastWith nn k with _ | v
    · rfl
    · rfl
  have hG2edges : (syncFileStep (syncFileStep g0 rel nn ne).graph rel nn ne).graph.edges =
      ((removeFileFromGraph (syncFileStep g0 rel nn ne).graph rel).1).edges ++ dedup4 ne :=
    mergeEdges_eq_append_dedup4 rel _ ne
      (removed_edges_file (syncFileStep g0 rel nn ne).graph rel) hne
  refine ⟨?_, ?_, ?_, ?_, ?_⟩
  · rw [show (syncFileStep (syncFileStep g0 rel nn ne).graph rel nn ne).nodesAdded =
      nn.filter (fun n =>
        !((nodesForFile (syncFileStep g0 rel nn ne).graph rel).map (fun n => n.id)).contains
          n.id) from rfl]
    rw [List.filter_eq_nil]
    intro n hn
    obtain ⟨o, ho, hoid⟩ := hN2 n hn
    have : n.id ∈ (nodesForFile (syncFileStep g0 rel nn ne).graph rel).map (fun n => n.id) :=
      List.mem_map.mpr ⟨o, ho, hoid⟩
    simp [this]
  · rw [show (syncFileStep (syncFileStep g0 rel nn ne).graph rel nn ne).nodesRemoved =
      (nodesForFile (syncFileStep g0 rel nn ne).graph rel).filter (fun n =>
        !((nn.map (fun n => n.id)).contains n.id)) from rfl]
    rw [List.filter_eq_nil]
    intro o ho
    have : o.id ∈ nn.map (fun n => n.id) := List.mem_map.mpr ⟨o, (hN1 o ho).1, rfl⟩
    simp [this]
  · rw [show (syncFileStep (syncFileStep g0 rel nn ne).graph rel nn ne).edgesAdded =
      ne.filter (fun e =>
        !(((edgesForFile (syncFileStep g0 rel nn ne).graph rel).map edgeKey3).contains
          (edgeKey3 e))) from rfl]
    rw [List.filter_eq_nil]
    intro e he
    obtain ⟨e', he', hk⟩ := dedup4_covers ne [] e he
    have : edgeKey3 e ∈ (edgesForFile (syncFileStep g0 rel nn ne).graph rel).map edgeKey3 := by
      rw [holdE]
      exact List.mem_map.mpr ⟨e', he', edgeKey3_of_key4 hk⟩
    simp [this]
  · rw [show (syncFileStep (syncFileStep g0 rel nn ne).graph rel nn ne).edgesRemoved =
      (edgesForFile (syncFileStep g0 rel nn ne).graph rel).filter (fun e =>
        !((ne.map edgeKey3).contains (edgeKey3 e))) from rfl]
    rw [List.filter_eq_nil]
    intro e he
    rw [holdE] at he
    have : edgeKey3 e ∈ ne.map edgeKey3 :=
      List.mem_map.mpr ⟨e, dedup4_subset ne e he, rfl⟩
    simp [this]
  · rw [show (syncFileStep (syncFileStep g0 rel nn ne).graph rel nn ne).drift =
      detectDrift (syncFileStep (syncFileStep g0 rel nn ne).graph rel nn ne).graph rel
        (nodesForFile (syncFileStep g0 rel nn ne).graph rel)
        (edgesForFile (syncFileStep g0 rel nn ne).graph rel) nn ne from rfl]
    exact detectDrift_second_run _ rel _ nn _ ne holdE hNlast
      (fun e he => hG2edges ▸ List.mem_append_right _ he)

/-- C5 (counterexample): with a mutual `calls` pair inside the file, the
second sync run over unchanged extraction output re-reports the
circular-dependency BLOCK warnings — the drift list is not empty, contrary
to the claimed idempotence. -/
theorem c5_counterexample :
    (∀ n ∈ exIdemNodes, n.file = "a.py") ∧ (∀ e ∈ exIdemEdges, e.file = "a.py") ∧
      exSecondRun.nodesAdded = [] ∧ exSecondRun.edgesAdded = [] ∧
      exSecondRun.drift ≠ [] := by
  decide

/-- C5 witness: the amended conclusion at the concrete two-node input. -/
theorem c5_witness :
    exSecondRun.nodesAdded = [] ∧ exSecondRun.nodesRemoved = [] ∧
      exSecondRun.edgesAdded = [] ∧ exSecondRun.edgesRemoved = [] ∧
      exSecondRun.drift = (detectCircularDependencies exSecondRun.graph "a.py").map (fun cyc =>
        Drift.mk "circular_dependency" "BLOCK"
          ("Circular dependency detected: " ++ String.intercalate " -> " cyc)) :=
  c5_amended emptySyncGraph "a.py" exIdemNodes exIdemEdges (by decide) (by decide)

end Okode
